import Mathlib

/-!
Verification development for the per-iteration rendering pipeline of a GPU
path tracer (`src/pathtrace.cu`).  The CUDA kernels are shallowly embedded as
pure Lean functions over exact rational arithmetic:

* geometry (hit distances, positions, normals) lives in `ℚ`;
* colors live in `FQ`, a rational extended with a NaN element, so that the
  IEEE `x != x` NaN test of `util_math_is_nan` is expressible;
* the per-shape intersection tests, the BSDF samplers, `glm` vector helpers
  and `utilhash` are declared in `intersections.h` / `interactions.h` /
  `utilities.h`, which are outside the embedded translation unit; they are
  taken as explicit function parameters of the kernels that call them;
* the unbounded `while` loop of the stackless BVH traversal is embedded as a
  fuel-indexed iteration of its loop body (`traverseRun`), and theorems about
  it quantify over all sufficiently large fuels.
-/

namespace PT

/-- 3-component rational vector, modelling `glm::vec3` in exact arithmetic
(used for geometry: points, directions, normals). -/
structure Vec3 where
  x : ℚ
  y : ℚ
  z : ℚ
deriving DecidableEq

def vzero : Vec3 := ⟨0, 0, 0⟩

def vadd (a b : Vec3) : Vec3 := ⟨a.x + b.x, a.y + b.y, a.z + b.z⟩

def vsub (a b : Vec3) : Vec3 := ⟨a.x - b.x, a.y - b.y, a.z - b.z⟩

def vneg (a : Vec3) : Vec3 := ⟨-a.x, -a.y, -a.z⟩

def smul (c : ℚ) (a : Vec3) : Vec3 := ⟨c * a.x, c * a.y, c * a.z⟩

/-- `glm::dot` on rational vectors. -/
def dot (a b : Vec3) : ℚ := a.x * b.x + a.y * b.y + a.z * b.z

/-- `glm::mat3(T,B,N) * v`: the matrix whose columns are `T`, `B`, `N`
applied to `v`. -/
def mat3apply (T B N v : Vec3) : Vec3 := vadd (vadd (smul v.x T) (smul v.y B)) (smul v.z N)

/-- `glm::transpose(glm::mat3(T,B,N)) * v`. -/
def mat3Tapply (T B N v : Vec3) : Vec3 := ⟨dot T v, dot B v, dot N v⟩

/-- A rational extended with a NaN element.  Color arithmetic is carried out
in this type so that IEEE NaN propagation (and the `v.x != v.x` NaN test of
`util_math_is_nan`) has an exact counterpart. -/
inductive FQ where
  | nan
  | val (q : ℚ)
deriving DecidableEq

def FQ.mul : FQ → FQ → FQ
  | .nan, _ => .nan
  | .val _, .nan => .nan
  | .val a, .val b => .val (a * b)

def FQ.add : FQ → FQ → FQ
  | .nan, _ => .nan
  | .val _, .nan => .nan
  | .val a, .val b => .val (a + b)

/-- Multiplication of a color component by an exact (never-NaN) scalar. -/
def FQ.scale (c : ℚ) : FQ → FQ
  | .nan => .nan
  | .val a => .val (c * a)

/-- `x != x`, which on IEEE floats holds exactly for NaN. -/
def FQ.isNan : FQ → Bool
  | .nan => true
  | .val _ => false

/-- 3-component color vector (`glm::vec3` used as a color / throughput). -/
structure CVec where
  x : FQ
  y : FQ
  z : FQ
deriving DecidableEq

def czero : CVec := ⟨.val 0, .val 0, .val 0⟩

/-- White, the multiplicative identity color. -/
def cwhite : CVec := ⟨.val 1, .val 1, .val 1⟩

/-- Componentwise color product. -/
def cmul (a b : CVec) : CVec := ⟨a.x.mul b.x, a.y.mul b.y, a.z.mul b.z⟩

def cadd (a b : CVec) : CVec := ⟨a.x.add b.x, a.y.add b.y, a.z.add b.z⟩

/-- Color scaled by a rational scalar. -/
def cscale (c : ℚ) (a : CVec) : CVec := ⟨a.x.scale c, a.y.scale c, a.z.scale c⟩

/-- `util_math_is_nan` (`pathtrace.cu` line 56): `(v.x != v.x) || (v.y != v.y) || (v.z != v.z)`. -/
def util_math_is_nan (v : CVec) : Bool := v.x.isNan || v.y.isNan || v.z.isNan

/-! ### Data model (`sceneStructs.h` is outside the translation unit; the
structures below are modelled from the spec's §3 data model and from every
field access the kernels perform). -/

/-- `glm::mat4` model-to-world transform.  The kernels never compute with it
(it is only passed through to the external triangle test), so it is kept as
an opaque 4×4 rational matrix. -/
structure Transf where
  m : Fin 4 → Fin 4 → ℚ

def transfId : Transf := ⟨fun _ _ => 0⟩

/-- Modelled from the spec: object type tag (sphere | box | triangle-mesh
"model"). -/
inductive ObjectType where
  | SPHERE
  | CUBE
  | MODEL
deriving DecidableEq

/-- Modelled from the spec: an object: type tag, model-to-world transform,
material id, and for mesh objects a `[triangleStart, triangleEnd)` range into
the global triangle array. -/
structure Object where
  type : ObjectType
  Transform : Transf
  materialid : ℤ
  triangleStart : ℕ
  triangleEnd : ℕ

def objDefault : Object := ⟨.CUBE, transfId, 0, 0, 0⟩

structure Ray where
  origin : Vec3
  direction : Vec3
deriving DecidableEq

/-- Result of one external per-shape intersection test: parametric distance
`t` (`t ≤ 0`, conventionally `-1`, means miss) together with the hit point
and normal the test writes through its output parameters.  (The triangle
test also writes a barycentric coordinate; no caller reads it, so it is not
modelled.) -/
structure Hit where
  t : ℚ
  point : Vec3
  normal : Vec3
deriving DecidableEq

/-- Modelled from the spec: per-bounce intersection record, including the
cached material-type tag used for coherence sorting.  The tag is an integer
because the record is `cudaMemset` to raw zero bytes each bounce. -/
structure ShadeableIntersection where
  t : ℚ
  materialId : ℤ
  surfaceNormal : Vec3
  worldPos : Vec3
  type : ℤ
deriving DecidableEq

/-- The all-zero record produced by the per-bounce
`cudaMemset(dev_intersections1, 0, ...)`. -/
def clearedIntersection : ShadeableIntersection := ⟨0, 0, vzero, vzero, 0⟩

/-- Modelled from the spec: a path segment: one ray, a throughput color,
the originating pixel index and a remaining-bounce counter. -/
structure PathSegment where
  ray : Ray
  color : CVec
  pixelIndex : ℕ
  remainingBounces : ℤ
deriving DecidableEq

def segDefault : PathSegment := ⟨⟨vzero, vzero⟩, czero, 0, 0⟩

/-- Modelled from the spec: a material: type tag, base color, emittance,
roughness, index of refraction.  The numeric values of the `MaterialType`
enumerators live in the external header, so the tag is an integer and the
enumerator values are parameters of the scatter kernel. -/
structure Material where
  type : ℤ
  color : CVec
  emittance : ℚ
  roughness : ℚ
  indexOfRefraction : ℚ
deriving DecidableEq

def matDefault : Material := ⟨0, czero, 0, 0, 0⟩

/-- Axis-aligned bounding box. -/
structure BBox where
  pMin : Vec3
  pMax : Vec3
deriving DecidableEq

def boxCenter (b : BBox) : Vec3 := smul (1/2) (vadd b.pMin b.pMax)

/-- Modelled from the spec: flat BVH node: box, left/right child indices
(−1 for a leaf), parent index (−1 only for the root), and for leaves a
`[startPrim, endPrim)` range into the primitive array. -/
structure BVHGPUNode where
  bbox : BBox
  left : ℤ
  right : ℤ
  parent : ℤ
  startPrim : ℕ
  endPrim : ℕ
deriving DecidableEq

def bvhDefault : BVHGPUNode := ⟨⟨vzero, vzero⟩, -1, -1, -1, 0, 0⟩

/-- Modelled from the spec: leaf-level primitive: owning object id plus a
local triangle offset for mesh objects. -/
structure Primitive where
  objID : ℕ
  offset : ℕ
deriving DecidableEq

def primDefault : Primitive := ⟨0, 0⟩

/-- The binary tree a well-formed flat BVH array realizes: each node carries
its box, leaves carry their primitive range. -/
inductive BTree where
  | leaf (box : BBox) (s e : ℕ)
  | node (box : BBox) (l r : BTree)

def BTree.size : BTree → ℕ
  | .leaf _ _ _ => 1
  | .node _ l r => 1 + l.size + r.size

def BTree.box : BTree → BBox
  | .leaf b _ _ => b
  | .node b _ _ => b

/-- All leaf primitive ranges of a tree, left to right. -/
def BTree.leaves : BTree → List (ℕ × ℕ)
  | .leaf _ s e => [(s, e)]
  | .node _ l r => l.leaves ++ r.leaves

/-- `FLT_MAX` as an exact rational: `(2 - 2⁻²³) · 2¹²⁷ = 2¹²⁸ - 2¹⁰⁴`,
written as a plain numeral. -/
def FLT_MAX : ℚ := 340282346638528859811704183484516925440

/-- The `1e20f` initial value of `tmpIntersection.t` in the BVH kernel. -/
def BVH_TMAX : ℚ := 100000000000000000000

/-- `MAX_ITER` (`#define MAX_ITER 8`), the global depth cap of the bounce loop. -/
def MAX_ITER : ℕ := 8

/-- `SCATTER_ORIGIN_OFFSETMULT` (`0.1f`). -/
def SCATTER_ORIGIN_OFFSETMULT : ℚ := 1/10

/-- The functions (and enumerator values) the kernels use but whose code
lives outside the embedded translation unit: the per-shape intersection
tests and the bounding-box test of `intersections.h`, the `glm` vector
helpers, `utilhash` and the uniform draw of a seeded `thrust` engine from
`utilities.h`, the shading-frame / BSDF helpers of `interactions.h`, the
numeric values of the `MaterialType` enumerators of `sceneStructs.h`, and
the key-sort of `thrust::sort_by_key` (the sort receives the number of
compacted rays and the two buffers it permutes).  Every kernel takes this
record as an explicit parameter `E`. -/
structure Externals where
  boxIntersectionTest : Object → Ray → Hit
  sphereIntersectionTest : Object → Ray → Hit
  triangleIntersectionTest : Transf → Vec3 → Vec3 → Vec3 → Ray → Hit
  boundingBoxIntersectionTest : BBox → Ray → Bool
  glm_distance : Vec3 → Vec3 → ℚ
  glm_normalize : Vec3 → Vec3
  utilhash : ℕ → ℕ
  u01 : ℕ → ℕ → ℚ
  util_math_get_TBN : Vec3 → Vec3 × Vec3
  util_math_abscos : Vec3 → ℚ
  bxdf_frensel_specular_sample_f : Vec3 → ℚ × ℚ → CVec → CVec → ℚ × ℚ → CVec × Vec3 × ℚ
  bxdf_microfacet_sample_f : Vec3 → ℚ × ℚ → CVec → ℚ → CVec × Vec3 × ℚ
  bxdf_diffuse_sample_f : Vec3 → ℚ × ℚ → CVec → CVec × Vec3 × ℚ
  MT_emitting : ℤ
  MT_frenselSpecular : ℤ
  MT_microfacet : ℤ
  thrust_sort_by_key : ℕ → List ShadeableIntersection → List PathSegment → List ShadeableIntersection × List PathSegment

variable (E : Externals)

section Kernels

/-! ### Brute-force intersection kernel (`compute_intersection`, lines 218–306) -/

/-- The per-thread local variables of `compute_intersection` that survive
across loop iterations: the last test's return value `t`, the running
minimum `t_min`, the best hit's material / point / normal, and the output
parameters `tmp_intersect` / `tmp_normal` of the most recent shape test. -/
structure BFAcc where
  t : ℚ
  t_min : ℚ
  hit_material_index : ℤ
  intersect_point : Vec3
  normal : Vec3
  tmp_intersect : Vec3
  tmp_normal : Vec3
deriving DecidableEq

/-- A shape test: writes `t`, `tmp_intersect`, `tmp_normal`. -/
def bfTest (h : Hit) (a : BFAcc) : BFAcc :=
  { a with t := h.t, tmp_intersect := h.point, tmp_normal := h.normal }

/-- The min-`t` check `if (t > 0.0f && t_min > t) { ... }` recording the
current test as the best hit. -/
def bfUpdate (matid : ℤ) (a : BFAcc) : BFAcc :=
  if 0 < a.t ∧ a.t < a.t_min then
    { a with
      t_min := a.t
      hit_material_index := matid
      intersect_point := a.tmp_intersect
      normal := a.tmp_normal }
  else a

/-- One triangle of the `MODEL` inner loop (test then inline min-check). -/
def bfTri (tris : List (ℕ × ℕ × ℕ)) (verts : List Vec3) (geom : Object) (ray : Ray)
    (a : BFAcc) (i : ℕ) : BFAcc :=
  let tri := tris.getD i (0, 0, 0)
  let v0 := verts.getD tri.1 vzero
  let v1 := verts.getD tri.2.1 vzero
  let v2 := verts.getD tri.2.2 vzero
  bfUpdate geom.materialid (bfTest (E.triangleIntersectionTest geom.Transform v0 v1 v2 ray) a)

/-- One iteration of the outer loop over `geoms`: the per-type shape test
followed by the (for `MODEL`: redundant) min-`t` check. -/
def bfObject (tris : List (ℕ × ℕ × ℕ)) (verts : List Vec3) (ray : Ray)
    (a : BFAcc) (geom : Object) : BFAcc :=
  match geom.type with
  | .CUBE => bfUpdate geom.materialid (bfTest (E.boxIntersectionTest geom ray) a)
  | .SPHERE => bfUpdate geom.materialid (bfTest (E.sphereIntersectionTest geom ray) a)
  | .MODEL =>
      let a' := (List.range' geom.triangleStart (geom.triangleEnd - geom.triangleStart)).foldl
        (bfTri E tris verts geom ray) a
      bfUpdate geom.materialid a'

/-- The initial local state: `t = -1`, `t_min = FLT_MAX`,
`hit_material_index = -1`; the remaining locals are uninitialized in the
source and modelled as zero (the kernels never read them before writing
them). -/
def bfInit : BFAcc := ⟨-1, FLT_MAX, -1, vzero, vzero, vzero, vzero⟩

/-- One thread of `compute_intersection`: returns the updated intersection
record and the validity flag.  On a miss (`t_min == FLT_MAX`) the record is
left untouched and the flag is 0; on a hit the kernel writes `t`,
`materialId`, `surfaceNormal`, `worldPos` (and nothing else) and sets the
flag to 1. -/
def compute_intersection_one (geoms : List Object) (tris : List (ℕ × ℕ × ℕ))
    (verts : List Vec3) (ray : Ray) (rec : ShadeableIntersection) :
    ShadeableIntersection × ℕ :=
  let a := geoms.foldl (bfObject E tris verts ray) bfInit
  if a.t_min = FLT_MAX then (rec, 0)
  else ({ rec with
          t := a.t_min
          materialId := a.hit_material_index
          surfaceNormal := a.normal
          worldPos := a.intersect_point }, 1)

/-! ### BVH utilities and the stackless traversal
(`util_bvh_*`, `compute_intersection_bvh_stackless`, lines 308–470) -/

/-- Guarded access into the flat BVH node array (a C array access
`bvhArray[i]`; the guard only matters for out-of-range indices, which the
well-formedness hypotheses exclude). -/
def getNode (arr : List BVHGPUNode) (i : ℤ) : BVHGPUNode :=
  if 0 ≤ i then arr.getD i.toNat bvhDefault else bvhDefault

/-- `util_bvh_get_sibling`. -/
def util_bvh_get_sibling (arr : List BVHGPUNode) (curr : ℤ) : ℤ :=
  let parent := (getNode arr curr).parent
  if parent = -1 then -1
  else if (getNode arr parent).left = curr then (getNode arr parent).right
  else (getNode arr parent).left

/-- `util_bvh_get_near_child`: the child whose box center is closer (by
`glm::distance`) to the ray origin; ties go to the right child. -/
def util_bvh_get_near_child (arr : List BVHGPUNode) (curr : ℤ) (rayOri : Vec3) : ℤ :=
  let cl := boxCenter (getNode arr (getNode arr curr).left).bbox
  let cr := boxCenter (getNode arr (getNode arr curr).right).bbox
  if E.glm_distance cl rayOri < E.glm_distance cr rayOri then (getNode arr curr).left
  else (getNode arr curr).right

/-- `util_bvh_is_leaf`. -/
def util_bvh_is_leaf (arr : List BVHGPUNode) (curr : ℤ) : Bool :=
  (getNode arr curr).left = -1 && (getNode arr curr).right = -1

/-- The candidate produced by testing primitive `i` of the primitive array:
its hit result together with the owning object's material id.  This is the
body of the `util_bvh_leaf_intersect` loop. -/
def primCand (prims : List Primitive) (objects : List Object)
    (tris : List (ℕ × ℕ × ℕ)) (verts : List Vec3) (ray : Ray) (i : ℕ) :
    Hit × ℤ :=
  let prim := prims.getD i primDefault
  let obj := objects.getD prim.objID objDefault
  let h :=
    match obj.type with
    | .MODEL =>
        let tri := tris.getD (obj.triangleStart + prim.offset) (0, 0, 0)
        E.triangleIntersectionTest obj.Transform (verts.getD tri.1 vzero)
          (verts.getD tri.2.1 vzero) (verts.getD tri.2.2 vzero) ray
    | .CUBE => E.boxIntersectionTest obj ray
    | .SPHERE => E.sphereIntersectionTest obj ray
  (h, obj.materialid)

/-- Fold of the leaf-primitive tests over a `[s, e)` range, keeping the
nearest positive-`t` hit (`t > 0.0 && t < intersection->t`) and whether any
test improved the record. -/
def leafFoldRange (prims : List Primitive) (objects : List Object)
    (tris : List (ℕ × ℕ × ℕ)) (verts : List Vec3) (ray : Ray) (s e : ℕ)
    (inter : ShadeableIntersection) : ShadeableIntersection × Bool :=
  (List.range' s (e - s)).foldl
    (fun p i =>
      let c := primCand E prims objects tris verts ray i
      if 0 < c.1.t ∧ c.1.t < p.1.t then
        ({ p.1 with
            t := c.1.t
            materialId := c.2
            worldPos := c.1.point
            surfaceNormal := c.1.normal }, true)
      else p)
    (inter, false)

/-- `util_bvh_leaf_intersect`: tests the primitive range of leaf `curr`. -/
def util_bvh_leaf_intersect (arr : List BVHGPUNode) (prims : List Primitive)
    (objects : List Object) (tris : List (ℕ × ℕ × ℕ)) (verts : List Vec3)
    (curr : ℤ) (ray : Ray) (inter : ShadeableIntersection) :
    ShadeableIntersection × Bool :=
  leafFoldRange E prims objects tris verts ray
    (getNode arr curr).startPrim (getNode arr curr).endPrim inter

inductive bvh_traverse_state where
  | fromChild
  | fromParent
  | fromSibling
deriving DecidableEq

/-- The per-thread state of the stackless walk: current node, traversal
state, running best intersection and the `intersected` flag. -/
structure TraverseCfg where
  curr : ℤ
  state : bvh_traverse_state
  inter : ShadeableIntersection
  intersected : Bool
deriving DecidableEq

/-- The loop exits when `curr` leaves `[0, bvhArraySize)` or when the walk
returns to the root from below (`state == fromChild && curr == 0`). -/
def traverseDone (len : ℕ) (c : TraverseCfg) : Bool :=
  ¬(0 ≤ c.curr ∧ c.curr < (len : ℤ)) ∨ (c.state = .fromChild ∧ c.curr = 0)

/-- One iteration of the `while` loop of
`compute_intersection_bvh_stackless` (only evaluated on non-terminal
configurations). -/
def traverseStep (arr : List BVHGPUNode) (prims : List Primitive)
    (objects : List Object) (tris : List (ℕ × ℕ × ℕ)) (verts : List Vec3)
    (ray : Ray) (c : TraverseCfg) : TraverseCfg :=
  match c.state with
  | .fromChild =>
      let parent := (getNode arr c.curr).parent
      if c.curr = util_bvh_get_near_child E arr parent ray.origin then
        { c with curr := util_bvh_get_sibling arr c.curr, state := .fromSibling }
      else
        { c with curr := parent, state := .fromChild }
  | .fromSibling =>
      if ¬ E.boundingBoxIntersectionTest (getNode arr c.curr).bbox ray then
        { c with curr := (getNode arr c.curr).parent, state := .fromChild }
      else if util_bvh_is_leaf arr c.curr then
        let r := util_bvh_leaf_intersect E arr prims objects tris verts c.curr ray c.inter
        { curr := (getNode arr c.curr).parent
          state := .fromChild
          inter := r.1
          intersected := c.intersected || r.2 }
      else
        { c with
          curr := util_bvh_get_near_child E arr c.curr ray.origin
          state := .fromParent }
  | .fromParent =>
      if ¬ E.boundingBoxIntersectionTest (getNode arr c.curr).bbox ray then
        { c with curr := util_bvh_get_sibling arr c.curr, state := .fromSibling }
      else if util_bvh_is_leaf arr c.curr then
        let r := util_bvh_leaf_intersect E arr prims objects tris verts c.curr ray c.inter
        { curr := util_bvh_get_sibling arr c.curr
          state := .fromSibling
          inter := r.1
          intersected := c.intersected || r.2 }
      else
        { c with
          curr := util_bvh_get_near_child E arr c.curr ray.origin
          state := .fromParent }

/-- Fuel-indexed iteration of the traversal loop.  The source loop is
unbounded; on any well-formed BVH it terminates, and the theorems below show
every sufficiently large fuel reaches the (fixed) terminal configuration. -/
def traverseRun (arr : List BVHGPUNode) (prims : List Primitive)
    (objects : List Object) (tris : List (ℕ × ℕ × ℕ)) (verts : List Vec3)
    (ray : Ray) : ℕ → TraverseCfg → TraverseCfg
  | 0, c => c
  | fuel + 1, c =>
      if traverseDone arr.length c then c
      else traverseRun arr prims objects tris verts ray fuel
        (traverseStep E arr prims objects tris verts ray c)

/-- The local `tmpIntersection` of the BVH kernel: only its `t` field is
initialized (to `1e20f`); the remaining fields are modelled as zero and are
never copied out unless overwritten by a leaf test. -/
def bvhTmpInit : ShadeableIntersection := ⟨BVH_TMAX, 0, vzero, vzero, 0⟩

/-- The initial configuration: the near child of the root, in state
`fromParent`. -/
def bvhInitCfg (arr : List BVHGPUNode) (ray : Ray) : TraverseCfg :=
  ⟨util_bvh_get_near_child E arr 0 ray.origin, .fromParent, bvhTmpInit, false⟩

/-- One thread of `compute_intersection_bvh_stackless` at a given fuel:
runs the walk, then on a hit copies `tmpIntersection` into the record and
caches the material-type tag from the material store; on a miss leaves the
record untouched.  Returns the record and the validity flag. -/
def compute_intersection_bvh_stackless_one (fuel : ℕ)
    (materials : List Material) (arr : List BVHGPUNode) (prims : List Primitive)
    (objects : List Object) (tris : List (ℕ × ℕ × ℕ)) (verts : List Vec3)
    (ray : Ray) (rec : ShadeableIntersection) : ShadeableIntersection × ℕ :=
  let c := traverseRun E arr prims objects tris verts ray fuel (bvhInitCfg E arr ray)
  if c.intersected then
    ({ c.inter with type := (materials.getD c.inter.materialId.toNat matDefault).type }, 1)
  else (rec, 0)

/-! ### Seeding and path generation
(`makeSeededRandomEngine` line 50, `generateRayFromCamera` lines 184–212) -/

/-- `makeSeededRandomEngine(iter, index, depth)`: the seed
`utilhash((1 << 31) | (depth << 22) | iter) ^ utilhash(index)` of the thrust
engine (the engine is determined by its seed; draws from it are the external
`E.u01 seed k`). -/
def makeSeededRandomEngine (iter index depth : ℕ) : ℕ :=
  E.utilhash ((2 ^ 31) ||| (depth <<< 22) ||| iter) ^^^ E.utilhash index

/-- Modelled from the spec: the camera of `sceneStructs.h`: position, view /
right / up basis, per-pixel angular increment and resolution (the only
fields `generateRayFromCamera` reads). -/
structure Camera where
  position : Vec3
  view : Vec3
  up : Vec3
  right : Vec3
  resolution : ℕ × ℕ
  pixelLength : ℚ × ℚ

/-- One thread of `generateRayFromCamera` at pixel `(x, y)` (the
`STOCHASTIC_SAMPLING` branch, which is compiled): jittered view ray, white
throughput, pixel index `x + y * resolution.x`, remaining bounces set to the
trace depth. -/
def generateRayFromCamera_one (cam : Camera) (iter : ℕ) (traceDepth : ℤ)
    (x y : ℕ) : PathSegment :=
  let rng := makeSeededRandomEngine E x y iter
  { ray :=
      { origin := cam.position
        direction := E.glm_normalize (vsub (vsub cam.view
          (smul (cam.pixelLength.1 *
            ((x : ℚ) - (cam.resolution.1 : ℚ) * (1/2) + (1/2) * (E.u01 rng 0 * 2 - 1)))
            cam.right))
          (smul (cam.pixelLength.2 *
            ((y : ℚ) - (cam.resolution.2 : ℚ) * (1/2) + (1/2) * (E.u01 rng 1 * 2 - 1)))
            cam.up)) }
    color := cwhite
    pixelIndex := x + y * cam.resolution.1
    remainingBounces := traceDepth }

/-- The full generation pass: every pixel's thread writes its own slot of
the path buffer, overwriting whatever `prevBuffer` contents were left there
by earlier iterations (out-of-resolution threads are no-ops and the grid
covers the whole buffer, so `prevBuffer` never shows through). -/
def generateRayFromCamera (cam : Camera) (iter : ℕ) (traceDepth : ℤ)
    (prevBuffer : List PathSegment) : List PathSegment :=
  (List.range (cam.resolution.1 * cam.resolution.2)).map
    (fun idx => generateRayFromCamera_one E cam iter traceDepth
      (idx % cam.resolution.1) (idx / cam.resolution.1))

/-! ### Stream compaction (`compact_rays`, lines 564–585) -/

/-- `thrust::exclusive_scan` on the validity flags: output `i` is the sum of
the flags at indices `< i`. -/
def exclusive_scan (l : List ℕ) : List ℕ :=
  (List.range l.length).map (fun i => (l.take i).sum)

/-- `thrust::scatter_if src idx stencil dst`: element `i` of `src` is written
to `dst[idx[i]]` whenever `stencil[i]` is nonzero. -/
def scatter_if {α : Type} : List α → List ℕ → List ℕ → List α → List α
  | [], _, _, dst => dst
  | _, [], _, dst => dst
  | _, _, [], dst => dst
  | s :: src, i :: idx, f :: stencil, dst =>
      scatter_if src idx stencil (if f ≠ 0 then dst.set i s else dst)

/-- The buffers and count produced by `compact_rays` (after the
`std::swap` of the two path buffers and the two intersection buffers). -/
structure CompactResult where
  nextNumRays : ℕ
  paths1 : List PathSegment
  paths2 : List PathSegment
  inters1 : List ShadeableIntersection
  inters2 : List ShadeableIntersection

/-- `compact_rays`: exclusive-scans the validity flags into the index
buffer, reads the new count as last-scan + last-flag, scatters the surviving
path segments and intersection records into the second buffers, optionally
sorts the compacted range by cached material type, and swaps the buffer
pairs. -/
def compact_rays (sortByMat : Bool) (numRays : ℕ) (rayValid : List ℕ)
    (paths1 paths2 : List PathSegment)
    (inters1 inters2 : List ShadeableIntersection) : CompactResult :=
  let rayIndex := exclusive_scan rayValid
  let nextNumRays := rayIndex.getLastD 0 + rayValid.getLastD 0
  let paths2' := scatter_if (paths1.take numRays) rayIndex rayValid paths2
  let inters2' := scatter_if (inters1.take numRays) rayIndex rayValid inters2
  let sorted :=
    if sortByMat then E.thrust_sort_by_key nextNumRays inters2' paths2'
    else (inters2', paths2')
  { nextNumRays := nextNumRays
    paths1 := sorted.2
    paths2 := paths1
    inters1 := sorted.1
    inters2 := inters1 }

/-! ### Scattering (`scatter_on_intersection`, lines 473–543; the
`VIS_NORMAL` branch is compiled out) -/

/-- One thread of `scatter_on_intersection` at compacted slot `idx`:
returns the updated path segment, the validity flag and the updated image. -/
def scatter_on_intersection_one (iter idx : ℕ)
    (intersection : ShadeableIntersection) (seg : PathSegment)
    (materials : List Material) (image : List CVec) :
    PathSegment × ℕ × List CVec :=
  let rng := makeSeededRandomEngine E iter idx 0
  let material := materials.getD intersection.materialId.toNat matDefault
  let materialColor := material.color
  if material.type = E.MT_emitting then
    let seg' := { seg with color := cmul seg.color (cscale material.emittance materialColor) }
    let image' :=
      if ¬ util_math_is_nan seg'.color then
        image.set seg'.pixelIndex (cadd (image.getD seg'.pixelIndex czero) seg'.color)
      else image
    (seg', 0, image')
  else
    let woInWorld := seg.ray.direction
    let N := E.glm_normalize intersection.surfaceNormal
    let TB := E.util_math_get_TBN N
    let T := TB.1
    let B := TB.2
    let wo := E.glm_normalize (mat3Tapply T B N (vneg woInWorld))
    let rand2 := (E.u01 rng 0, E.u01 rng 1)
    let s :=
      if material.type = E.MT_frenselSpecular then
        let iors :=
          if dot woInWorld N < 0 then ((1 : ℚ), material.indexOfRefraction)
          else (material.indexOfRefraction, (1 : ℚ))
        E.bxdf_frensel_specular_sample_f wo rand2 materialColor materialColor iors
      else if material.type = E.MT_microfacet then
        E.bxdf_microfacet_sample_f wo rand2 materialColor material.roughness
      else
        E.bxdf_diffuse_sample_f wo rand2 materialColor
    let bxdf := s.1
    let wi := s.2.1
    let pdf := s.2.2
    if 0 < pdf then
      let color' := cmul seg.color (cscale (E.util_math_abscos wi / pdf) bxdf)
      let newDir := E.glm_normalize (mat3apply T B N wi)
      let offset := if dot newDir N < 0 then vneg N else N
      let seg' :=
        { seg with
          color := color'
          ray :=
            { origin := vadd intersection.worldPos (smul SCATTER_ORIGIN_OFFSETMULT offset)
              direction := newDir } }
      (seg', 1, image)
    else
      (seg, 0, image)

/-! ### Final gather (`finalGather`, lines 547–556) -/

/-- `finalGather`: each of the first `nPaths` path segments adds its
throughput into the image at its own pixel, unless the throughput contains a
NaN component, in which case it is dropped. -/
def finalGather (nPaths : ℕ) (image : List CVec)
    (iterationPaths : List PathSegment) : List CVec :=
  (iterationPaths.take nPaths).foldl
    (fun img p =>
      if ¬ util_math_is_nan p.color then
        img.set p.pixelIndex (cadd (img.getD p.pixelIndex czero) p.color)
      else img)
    image

/-! ### The per-iteration orchestrator (`pathtrace`, lines 591–749;
`USE_BVH = 1` and `SORT_BY_MATERIAL_TYPE = 0` are the compiled
configuration) -/

/-- Writes `out i` into slots `i < n` of a buffer (the device-wide effect of
a kernel in which thread `i < n` overwrites its own slot), leaving the tail
untouched.  The first argument is the index of the list head. -/
def writePrefix {α : Type} (out : ℕ → α) : ℕ → ℕ → List α → List α
  | _, _, [] => []
  | i, n, a :: l => (if i < n then out i else a) :: writePrefix out (i + 1) n l

/-- The device-wide intersection stage in BVH mode: each active lane
`i < numRays` runs `compute_intersection_bvh_stackless_one` on its own ray
and record, producing the updated intersection buffer and the validity-flag
array. -/
def intersectPassBVH (fuel : ℕ) (materials : List Material)
    (arr : List BVHGPUNode) (prims : List Primitive) (objects : List Object)
    (tris : List (ℕ × ℕ × ℕ)) (verts : List Vec3) (numRays : ℕ)
    (paths : List PathSegment) (inters : List ShadeableIntersection) :
    List ShadeableIntersection × List ℕ :=
  let out := fun i => compute_intersection_bvh_stackless_one E fuel materials
    arr prims objects tris verts (paths.getD i segDefault).ray
    (inters.getD i clearedIntersection)
  (writePrefix (fun i => (out i).1) 0 numRays inters,
   (List.range numRays).map (fun i => (out i).2))

/-- One lane of the device-wide scatter stage: lane `i` reads its own slot
of the intersection and path buffers, scatters, writes its own path slot,
appends its validity flag and carries the image. -/
def scatterStep (iter : ℕ) (materials : List Material)
    (inters : List ShadeableIntersection)
    (acc : List PathSegment × List ℕ × List CVec) (i : ℕ) :
    List PathSegment × List ℕ × List CVec :=
  let r := scatter_on_intersection_one E iter i
    (inters.getD i clearedIntersection) (acc.1.getD i segDefault)
    materials acc.2.2
  (acc.1.set i r.1, acc.2.1 ++ [r.2.1], r.2.2)

/-- The device-wide scatter stage: each active lane `i < numRays` runs
`scatter_on_intersection_one` on its own slot; image contributions of the
lanes accumulate. -/
def scatterPass (iter numRays : ℕ) (materials : List Material)
    (inters : List ShadeableIntersection) (paths : List PathSegment)
    (image : List CVec) : List PathSegment × List ℕ × List CVec :=
  (List.range numRays).foldl (scatterStep E iter materials inters) (paths, [], image)

/-- The mutable state of the bounce loop: active-ray count, global depth
counter, the two path buffers, the two intersection buffers, and the image. -/
structure LoopState where
  numRays : ℕ
  depth : ℕ
  paths1 : List PathSegment
  paths2 : List PathSegment
  inters1 : List ShadeableIntersection
  inters2 : List ShadeableIntersection
  image : List CVec

/-- One round of the bounce loop: clear the intersection buffer, intersect
(BVH mode), increment depth, compact; if the active set became empty report
a break, otherwise scatter and compact again. -/
def bounceRound (fuel iter : ℕ) (materials : List Material)
    (arr : List BVHGPUNode) (prims : List Primitive) (objects : List Object)
    (tris : List (ℕ × ℕ × ℕ)) (verts : List Vec3) (sortByMat : Bool)
    (st : LoopState) : LoopState × Bool :=
  let cleared := List.replicate st.inters1.length clearedIntersection
  let ir := intersectPassBVH E fuel materials arr prims objects tris verts
    st.numRays st.paths1 cleared
  let depth' := st.depth + 1
  let c1 := compact_rays E sortByMat st.numRays ir.2 st.paths1 st.paths2 ir.1 st.inters2
  if c1.nextNumRays = 0 then
    ({ numRays := 0
       depth := depth'
       paths1 := c1.paths1
       paths2 := c1.paths2
       inters1 := c1.inters1
       inters2 := c1.inters2
       image := st.image }, true)
  else
    let sp := scatterPass E iter c1.nextNumRays materials c1.inters1 c1.paths1 st.image
    let c2 := compact_rays E false c1.nextNumRays sp.2.1 sp.1 c1.paths2 c1.inters1 c1.inters2
    ({ numRays := c2.nextNumRays
       depth := depth'
       paths1 := c2.paths1
       paths2 := c2.paths2
       inters1 := c2.inters1
       inters2 := c2.inters2
       image := sp.2.2 }, false)

/-- The bounce loop `while (numRays && depth < MAX_ITER) { ... }`, including
the early `if (!numRays) break;` after the first compaction of a round. -/
def bounceLoop (fuel iter : ℕ) (materials : List Material)
    (arr : List BVHGPUNode) (prims : List Primitive) (objects : List Object)
    (tris : List (ℕ × ℕ × ℕ)) (verts : List Vec3) (sortByMat : Bool)
    (st : LoopState) : LoopState :=
  if h : st.numRays ≠ 0 ∧ st.depth < MAX_ITER then
    let r := bounceRound E fuel iter materials arr prims objects tris verts sortByMat st
    if r.2 then r.1
    else bounceLoop fuel iter materials arr prims objects tris verts sortByMat r.1
  else st
termination_by MAX_ITER - st.depth
decreasing_by
  have hd : (bounceRound E fuel iter materials arr prims objects tris verts sortByMat st).1.depth
      = st.depth + 1 := by
    unfold bounceRound
    dsimp only
    split <;> rfl
  simp only [hd]
  omega

/-- Lines 729–734: after the loop exits, any still-active paths are folded
into the image by `finalGather`; with an empty active set the image is left
as is. -/
def pathtraceGather (st : LoopState) : List CVec :=
  if st.numRays ≠ 0 then finalGather st.numRays st.image st.paths1 else st.image

/-- One whole `pathtrace` iteration (modulo the PBO display copy): generate
the camera rays into the first path buffer, run the bounce loop starting at
depth 0 with every pixel active, and gather the survivors. -/
def pathtrace (fuel iter : ℕ) (traceDepth : ℤ) (cam : Camera)
    (materials : List Material) (arr : List BVHGPUNode)
    (prims : List Primitive) (objects : List Object)
    (tris : List (ℕ × ℕ × ℕ)) (verts : List Vec3) (sortByMat : Bool)
    (prevPaths1 paths2 : List PathSegment)
    (inters1 inters2 : List ShadeableIntersection) (image : List CVec) :
    List CVec :=
  let paths1 := generateRayFromCamera E cam iter traceDepth prevPaths1
  let st0 : LoopState :=
    { numRays := cam.resolution.1 * cam.resolution.2
      depth := 0
      paths1 := paths1
      paths2 := paths2
      inters1 := inters1
      inters2 := inters2
      image := image }
  pathtraceGather (bounceLoop E fuel iter materials arr prims objects tris verts sortByMat st0)

/-! ### Semantic companions used by the theorems: the candidate list each
intersection kernel folds over, the binary tree a well-formed flat BVH
array realizes, and the pruned traversal order. -/

/-- The candidate produced by testing one triangle of a mesh object (the
body of the `MODEL` inner loop, as a `(hit result, material id)` pair). -/
def triCand (tris : List (ℕ × ℕ × ℕ)) (verts : List Vec3) (g : Object)
    (ray : Ray) (i : ℕ) : Hit × ℤ :=
  let tri := tris.getD i (0, 0, 0)
  (E.triangleIntersectionTest g.Transform (verts.getD tri.1 vzero)
    (verts.getD tri.2.1 vzero) (verts.getD tri.2.2 vzero) ray,
   g.materialid)

/-- The candidates one object contributes to the brute-force enumeration:
an analytic object contributes one shape test, a mesh object one test per
triangle of its range. -/
def objCands (tris : List (ℕ × ℕ × ℕ)) (verts : List Vec3) (ray : Ray)
    (g : Object) : List (Hit × ℤ) :=
  match g.type with
  | .CUBE => [(E.boxIntersectionTest g ray, g.materialid)]
  | .SPHERE => [(E.sphereIntersectionTest g ray, g.materialid)]
  | .MODEL =>
      (List.range' g.triangleStart (g.triangleEnd - g.triangleStart)).map
        (triCand E tris verts g ray)

/-- The list of elementary intersection candidates `compute_intersection`
enumerates, in its own order: every analytic object once, every triangle of
every mesh object once (`(hit result, material id)` pairs). -/
def bruteCands (geoms : List Object) (tris : List (ℕ × ℕ × ℕ))
    (verts : List Vec3) (ray : Ray) : List (Hit × ℤ) :=
  geoms.flatMap (objCands E tris verts ray)

/-- The candidates of one leaf primitive range. -/
def rangeCands (prims : List Primitive) (objects : List Object)
    (tris : List (ℕ × ℕ × ℕ)) (verts : List Vec3) (ray : Ray) (s e : ℕ) :
    List (Hit × ℤ) :=
  (List.range' s (e - s)).map (primCand E prims objects tris verts ray)

/-- The candidates of a list of leaf primitive ranges, in order. -/
def leafCands (prims : List Primitive) (objects : List Object)
    (tris : List (ℕ × ℕ × ℕ)) (verts : List Vec3) (ray : Ray)
    (ranges : List (ℕ × ℕ)) : List (Hit × ℤ) :=
  ranges.flatMap (fun r => rangeCands E prims objects tris verts ray r.1 r.2)

/-- The pruned traversal order of the stackless walk over a (sub)tree: a
subtree whose box the ray misses is skipped whole; otherwise a leaf is
processed and an interior node recurses into the near child (the child
whose box center is closer to the ray origin) before the far child. -/
def tvisit (ray : Ray) : BTree → List (ℕ × ℕ)
  | .leaf b s e => if E.boundingBoxIntersectionTest b ray then [(s, e)] else []
  | .node b l r =>
      if E.boundingBoxIntersectionTest b ray then
        if E.glm_distance (boxCenter l.box) ray.origin
            < E.glm_distance (boxCenter r.box) ray.origin then
          tvisit ray l ++ tvisit ray r
        else
          tvisit ray r ++ tvisit ray l
      else []

/-- Conservativeness of the bounding boxes with respect to a ray: whenever
the ray misses the box of a subtree, every primitive candidate stored in
that subtree's leaves reports a miss (`t ≤ 0`). -/
def Conserv (prims : List Primitive) (objects : List Object)
    (tris : List (ℕ × ℕ × ℕ)) (verts : List Vec3) (ray : Ray) : BTree → Prop
  | .leaf b s e =>
      ¬ E.boundingBoxIntersectionTest b ray = true →
        ∀ c ∈ rangeCands E prims objects tris verts ray s e, c.1.t ≤ 0
  | .node b l r =>
      (¬ E.boundingBoxIntersectionTest b ray = true →
        ∀ c ∈ leafCands E prims objects tris verts ray (BTree.leaves l ++ BTree.leaves r),
          c.1.t ≤ 0)
      ∧ Conserv prims objects tris verts ray l
      ∧ Conserv prims objects tris verts ray r

/-- Processing one leaf range during the walk: fold its primitive tests into
the running record and or the improvement flag. -/
def procLeaf (prims : List Primitive) (objects : List Object)
    (tris : List (ℕ × ℕ × ℕ)) (verts : List Vec3) (ray : Ray)
    (p : ShadeableIntersection × Bool) (r : ℕ × ℕ) :
    ShadeableIntersection × Bool :=
  let q := leafFoldRange E prims objects tris verts ray r.1 r.2 p.1
  (q.1, p.2 || q.2)

/-- Processing a list of leaf ranges in order. -/
def procList (prims : List Primitive) (objects : List Object)
    (tris : List (ℕ × ℕ × ℕ)) (verts : List Vec3) (ray : Ray)
    (p : ShadeableIntersection × Bool) (l : List (ℕ × ℕ)) :
    ShadeableIntersection × Bool :=
  l.foldl (procLeaf E prims objects tris verts ray) p

/-- The walk moves from `c` to `c'` in exactly `k` loop iterations
(uniformly in any remaining fuel). -/
def RunsTo (arr : List BVHGPUNode) (prims : List Primitive)
    (objects : List Object) (tris : List (ℕ × ℕ × ℕ)) (verts : List Vec3)
    (ray : Ray) (k : ℕ) (c c' : TraverseCfg) : Prop :=
  ∀ f, traverseRun E arr prims objects tris verts ray (k + f) c
    = traverseRun E arr prims objects tris verts ray f c'

end Kernels

/-- Well-formedness of the flat BVH array below index `i`, as the §3 data
model states it: `i` is in range; a leaf has both children `-1` and an
ordered primitive range; an interior node has two distinct valid children
whose parent pointers point back to `i`; and the stored boxes are the tree's
boxes. -/
inductive Models (arr : List BVHGPUNode) : ℤ → BTree → Prop
  | leaf {i : ℤ} {b : BBox} {s e : ℕ} :
      0 ≤ i → i < (arr.length : ℤ) →
      (getNode arr i).bbox = b →
      (getNode arr i).left = -1 → (getNode arr i).right = -1 →
      (getNode arr i).startPrim = s → (getNode arr i).endPrim = e → s ≤ e →
      Models arr i (.leaf b s e)
  | node {i : ℤ} {b : BBox} {tl tr : BTree} :
      0 ≤ i → i < (arr.length : ℤ) →
      (getNode arr i).bbox = b →
      0 ≤ (getNode arr i).left → (getNode arr i).left < (arr.length : ℤ) →
      0 ≤ (getNode arr i).right → (getNode arr i).right < (arr.length : ℤ) →
      (getNode arr i).left ≠ (getNode arr i).right →
      (getNode arr (getNode arr i).left).parent = i →
      (getNode arr (getNode arr i).right).parent = i →
      Models arr (getNode arr i).left tl →
      Models arr (getNode arr i).right tr →
      Models arr i (.node b tl tr)

/-- The nearest-positive-`t` selection step shared by both kernels: a
candidate replaces the incumbent exactly when its `t` is positive and
strictly smaller. -/
def selStep (b c : Hit × ℤ) : Hit × ℤ :=
  if 0 < c.1.t ∧ c.1.t < b.1.t then c else b

def selFold (b : Hit × ℤ) (l : List (Hit × ℤ)) : Hit × ℤ := l.foldl selStep b

/-- The candidate view of an intersection record. -/
def candOfSI (si : ShadeableIntersection) : Hit × ℤ :=
  (⟨si.t, si.worldPos, si.surfaceNormal⟩, si.materialId)

/-- Writing a candidate's fields into an intersection record. -/
def writeCand (si : ShadeableIntersection) (c : Hit × ℤ) : ShadeableIntersection :=
  { si with
    t := c.1.t
    materialId := c.2
    worldPos := c.1.point
    surfaceNormal := c.1.normal }

/-- The candidate view of the brute-force kernel's running state. -/
def candOfBF (a : BFAcc) : Hit × ℤ :=
  (⟨a.t_min, a.intersect_point, a.normal⟩, a.hit_material_index)

/-- The candidate view of the brute-force kernel's initial state. -/
def bfInitCand : Hit × ℤ := (⟨FLT_MAX, vzero, vzero⟩, -1)

/-- The invariant of the brute-force locals after any min-check: the last
test's `t` is non-positive or at least the running minimum.  It makes the
redundant post-loop min-check of the `MODEL` branch a no-op. -/
def bfInv (a : BFAcc) : Prop := a.t ≤ 0 ∨ a.t_min ≤ a.t

/-- The selection step on a record/improvement pair, as performed by the
BVH leaf test. -/
def siSelStep (p : ShadeableIntersection × Bool) (c : Hit × ℤ) :
    ShadeableIntersection × Bool :=
  if 0 < c.1.t ∧ c.1.t < p.1.t then (writeCand p.1 c, true) else p

def siSelFold (p : ShadeableIntersection × Bool) (cl : List (Hit × ℤ)) :
    ShadeableIntersection × Bool :=
  cl.foldl siSelStep p

/-- Erasing the per-path remaining-bounce counter. -/
def eraseRB (s : PathSegment) : PathSegment := { s with remainingBounces := 0 }

/-- Erasing every remaining-bounce counter of a loop state. -/
def eraseState (st : LoopState) : LoopState :=
  { st with
    paths1 := st.paths1.map eraseRB
    paths2 := st.paths2.map eraseRB }

/-- Sum of a list of colors (`0` is the additive identity of `FQ.add`). -/
def csum (l : List CVec) : CVec := l.foldl cadd czero

/-- The elements of `src` whose flag is nonzero, in order. -/
def survivors {α : Type} (src : List α) (flags : List ℕ) : List α :=
  ((src.zip flags).filter (fun p => p.2 != 0)).map Prod.fst

/-- Modelled from the spec: a concrete instantiation of the external
functions (whose code, in `intersections.h` / `interactions.h` /
`utilities.h`, is outside the embedded translation unit) used by concrete
witnesses: the sphere test hits at `t = 5`, the box and triangle tests
miss, every bounding box passes, the two box centers are equidistant from
the ray origin (so the near child is the right child), `utilhash` is the
identity hash stand-in, and every BSDF sampler returns the material color
with `pdf = 1`. -/
def Etest : Externals where
  boxIntersectionTest := fun _ _ => ⟨-1, vzero, vzero⟩
  sphereIntersectionTest := fun _ _ => ⟨5, ⟨1, 2, 3⟩, ⟨0, 0, 1⟩⟩
  triangleIntersectionTest := fun _ _ _ _ _ => ⟨-1, vzero, vzero⟩
  boundingBoxIntersectionTest := fun _ _ => true
  glm_distance := fun _ _ => 0
  glm_normalize := fun v => v
  utilhash := fun n => n
  u01 := fun _ _ => 1/2
  util_math_get_TBN := fun _ => (⟨1, 0, 0⟩, ⟨0, 1, 0⟩)
  util_math_abscos := fun v => v.z
  bxdf_frensel_specular_sample_f := fun _ _ c _ _ => (c, ⟨0, 0, 1⟩, 1)
  bxdf_microfacet_sample_f := fun _ _ c _ => (c, ⟨0, 0, 1⟩, 1)
  bxdf_diffuse_sample_f := fun _ _ c => (c, ⟨0, 0, 1⟩, 1)
  MT_emitting := 1
  MT_frenselSpecular := 2
  MT_microfacet := 3
  thrust_sort_by_key := fun _ a b => (a, b)

/-- `Etest` with every bounding-box test failing: the geometry is unchanged
but the BVH boxes no longer bound it (which the §3 data-model invariants do
not rule out). -/
def Ecex : Externals := { Etest with boundingBoxIntersectionTest := fun _ _ => false }

/-- A cube-shaped axis-aligned box `[lo, hi]³`. -/
def wBox (lo hi : ℚ) : BBox := ⟨⟨lo, lo, lo⟩, ⟨hi, hi, hi⟩⟩

/-- A 3-node BVH: interior root `0` with leaf children `1` (near, primitive
range `[0,1)`) and `2` (far, primitive range `[1,2)`).  It satisfies every
§3 structural invariant. -/
def cexArr : List BVHGPUNode :=
  [⟨wBox 0 8, 1, 2, -1, 0, 0⟩,
   ⟨wBox 0 2, -1, -1, 0, 0, 1⟩,
   ⟨wBox 0 4, -1, -1, 0, 1, 2⟩]

/-- One sphere with material id 7. -/
def cexObjects : List Object := [⟨.SPHERE, transfId, 7, 0, 0⟩]

/-- Both leaves reference the sphere. -/
def cexPrims : List Primitive := [⟨0, 0⟩, ⟨0, 0⟩]

def cexRay : Ray := ⟨vzero, ⟨0, 0, 1⟩⟩

/-- The tree `cexArr` realizes. -/
def cexTree : BTree := .node (wBox 0 8) (.leaf (wBox 0 2) 0 1) (.leaf (wBox 0 4) 1 2)

/-- A material store whose entry 7 (the sphere's material) has type tag 42. -/
def wMaterials : List Material := List.replicate 7 matDefault ++ [⟨42, czero, 0, 0, 0⟩]

/-- A concrete 2×2 camera. -/
def wCam : Camera := ⟨vzero, ⟨0, 0, 1⟩, ⟨0, 1, 0⟩, ⟨1, 0, 0⟩, (2, 2), (1, 1)⟩

/-! ### Claim theorems -/

/-- Claim C10: for every path, the brute-force kernel writes only `t`,
`materialId`, `surfaceNormal` and `worldPos` of a hit record and never the
cached material-type tag — in particular, starting from the per-bounce
zero-cleared record the tag stays `0` — while the BVH kernel, on a hit,
copies the tag of the winning hit's material from the material store. -/
theorem claim_C10 (E : Externals) (geoms : List Object)
    (tris : List (ℕ × ℕ × ℕ)) (verts : List Vec3) (ray : Ray)
    (rec : ShadeableIntersection) (fuel : ℕ) (materials : List Material)
    (arr : List BVHGPUNode) (prims : List Primitive) (objects : List Object) :
    (compute_intersection_one E geoms tris verts ray rec).1.type = rec.type
    ∧ (compute_intersection_one E geoms tris verts ray clearedIntersection).1.type = 0
    ∧ ((compute_intersection_bvh_stackless_one E fuel materials arr prims objects
          tris verts ray rec).2 = 1 →
        (compute_intersection_bvh_stackless_one E fuel materials arr prims objects
          tris verts ray rec).1.type
          = (materials.getD (compute_intersection_bvh_stackless_one E fuel materials
              arr prims objects tris verts ray rec).1.materialId.toNat matDefault).type) := by
  refine ⟨?_, ?_, ?_⟩
  · unfold compute_intersection_one
    dsimp only
    split <;> rfl
  · unfold compute_intersection_one
    dsimp only
    split <;> rfl
  · intro h
    unfold compute_intersection_bvh_stackless_one at h ⊢
    dsimp only at h ⊢
    split at h
    case isTrue hc => rw [if_pos hc]
    case isFalse hc => exact absurd h (by simp)

/-- Witness for C10 on the concrete 3-node scene: the BVH kernel reports a
hit and caches material tag 42 from the store. -/
theorem claim_C10_witness :
    (compute_intersection_bvh_stackless_one Etest 10 wMaterials cexArr cexPrims
      cexObjects [] [] cexRay clearedIntersection).2 = 1
    ∧ (compute_intersection_bvh_stackless_one Etest 10 wMaterials cexArr cexPrims
        cexObjects [] [] cexRay clearedIntersection).1.type = 42 := by
  refine ⟨by decide, ?_⟩
  have h := (claim_C10 Etest cexObjects [] [] cexRay clearedIntersection 10
    wMaterials cexArr cexPrims cexObjects).2.2 (by decide)
  rw [h]
  decide

/-- Claim C5: a path whose intersection's material is emitting has, in one
scatter call, its throughput multiplied by (material color × emittance), its
validity flag set to 0, and the resulting color added to the image at its
pixel exactly when the color has no NaN component (a NaN result leaves the
image unchanged). -/
theorem claim_C5 (E : Externals) (iter idx : ℕ)
    (intersection : ShadeableIntersection) (seg : PathSegment)
    (materials : List Material) (image : List CVec) (m : Material)
    (hm0 : m = materials.getD intersection.materialId.toNat matDefault)
    (hm : m.type = E.MT_emitting)
    (r : PathSegment × ℕ × List CVec)
    (hr : r = scatter_on_intersection_one E iter idx intersection seg materials image) :
    r.1.color = cmul seg.color (cscale m.emittance m.color)
    ∧ r.1.pixelIndex = seg.pixelIndex
    ∧ r.2.1 = 0
    ∧ r.2.2 = (if util_math_is_nan r.1.color then image
        else image.set seg.pixelIndex
          (cadd (image.getD seg.pixelIndex czero) r.1.color)) := by
  subst hr
  unfold scatter_on_intersection_one
  rw [← hm0, if_pos hm]
  dsimp only
  by_cases hn : util_math_is_nan (cmul seg.color (cscale m.emittance m.color)) = true
  · simp [hn]
  · simp [hn]

/-- Witness for C5: an emitting hit on the concrete scene terminates the
path and deposits `throughput × color × emittance` at its pixel. -/
theorem claim_C5_witness :
    (scatter_on_intersection_one Etest 3 0
        { clearedIntersection with materialId := 0 }
        { segDefault with color := cwhite, pixelIndex := 0 }
        [⟨1, cwhite, 2, 0, 0⟩] [czero]).1.color
      = cmul cwhite (cscale 2 cwhite)
    ∧ (scatter_on_intersection_one Etest 3 0
        { clearedIntersection with materialId := 0 }
        { segDefault with color := cwhite, pixelIndex := 0 }
        [⟨1, cwhite, 2, 0, 0⟩] [czero]).2.1 = 0 := by
  have h := claim_C5 Etest 3 0 { clearedIntersection with materialId := 0 }
    { segDefault with color := cwhite, pixelIndex := 0 }
    [⟨1, cwhite, 2, 0, 0⟩] [czero] ⟨1, cwhite, 2, 0, 0⟩ (by decide) (by decide)
    _ rfl
  exact ⟨h.1, h.2.2.1⟩

/-- Claim C6: for a non-emitting hit, if the dispatched BSDF sampler
returns `pdf ≤ 0` the scatterer terminates the path (flag 0) with no other
effect; if `pdf > 0` it multiplies the throughput by
`BSDF × |cos θ| / pdf`, re-bases the ray at the hit point offset by the
fixed epsilon along `±N` according to the sign of `dot(newDir, N)`, points
it along the new world-space direction, and sets the flag to 1 (never
touching the image). -/
theorem claim_C6 (E : Externals) (iter idx : ℕ)
    (intersection : ShadeableIntersection) (seg : PathSegment)
    (materials : List Material) (image : List CVec) (m : Material)
    (hm0 : m = materials.getD intersection.materialId.toNat matDefault)
    (hm : ¬ m.type = E.MT_emitting)
    (N T B wo : Vec3) (rng : ℕ)
    (hrng : rng = makeSeededRandomEngine E iter idx 0)
    (hN : N = E.glm_normalize intersection.surfaceNormal)
    (hT : T = (E.util_math_get_TBN N).1)
    (hB : B = (E.util_math_get_TBN N).2)
    (hwo : wo = E.glm_normalize (mat3Tapply T B N (vneg seg.ray.direction)))
    (s : CVec × Vec3 × ℚ)
    (hs : s = (if m.type = E.MT_frenselSpecular then
        E.bxdf_frensel_specular_sample_f wo (E.u01 rng 0, E.u01 rng 1) m.color m.color
          (if dot seg.ray.direction N < 0 then ((1 : ℚ), m.indexOfRefraction)
           else (m.indexOfRefraction, (1 : ℚ)))
      else if m.type = E.MT_microfacet then
        E.bxdf_microfacet_sample_f wo (E.u01 rng 0, E.u01 rng 1) m.color m.roughness
      else
        E.bxdf_diffuse_sample_f wo (E.u01 rng 0, E.u01 rng 1) m.color))
    (r : PathSegment × ℕ × List CVec)
    (hr : r = scatter_on_intersection_one E iter idx intersection seg materials image) :
    (s.2.2 ≤ 0 → r = (seg, 0, image))
    ∧ (0 < s.2.2 →
        r.1.color = cmul seg.color (cscale (E.util_math_abscos s.2.1 / s.2.2) s.1)
        ∧ r.1.ray.direction = E.glm_normalize (mat3apply T B N s.2.1)
        ∧ r.1.ray.origin = vadd intersection.worldPos
            (smul SCATTER_ORIGIN_OFFSETMULT
              (if dot (E.glm_normalize (mat3apply T B N s.2.1)) N < 0 then vneg N else N))
        ∧ r.1.pixelIndex = seg.pixelIndex
        ∧ r.2.1 = 1
        ∧ r.2.2 = image) := by
  subst hr hrng hN hT hB hwo
  unfold scatter_on_intersection_one
  rw [← hm0, if_neg hm]
  dsimp only
  rw [← hs]
  constructor
  · intro hp
    rw [if_neg (by exact not_lt.mpr hp)]
  · intro hp
    rw [if_pos hp]
    exact ⟨rfl, rfl, rfl, rfl, rfl, rfl⟩

/-- Witness for C6 on the concrete scene: a diffuse hit (pdf = 1) continues
the path with flag 1 and leaves the image alone. -/
theorem claim_C6_witness :
    (scatter_on_intersection_one Etest 3 0
        { clearedIntersection with materialId := 0, surfaceNormal := ⟨0, 0, 1⟩ }
        { segDefault with color := cwhite } [⟨0, cwhite, 0, 0, 0⟩] [czero]).2.1 = 1
    ∧ (scatter_on_intersection_one Etest 3 0
        { clearedIntersection with materialId := 0, surfaceNormal := ⟨0, 0, 1⟩ }
        { segDefault with color := cwhite } [⟨0, cwhite, 0, 0, 0⟩] [czero]).2.2
      = [czero] := by
  have h := (claim_C6 Etest 3 0
    { clearedIntersection with materialId := 0, surfaceNormal := ⟨0, 0, 1⟩ }
    { segDefault with color := cwhite } [⟨0, cwhite, 0, 0, 0⟩] [czero]
    ⟨0, cwhite, 0, 0, 0⟩ (by decide) (by decide)
    _ _ _ _ _ rfl rfl rfl rfl rfl _ rfl _ rfl).2 (by decide)
  exact ⟨h.2.2.2.2.1, h.2.2.2.2.2⟩

/-- Claim C2: the stackless walk starts at the near child of the root in
state `fromParent`; the near child of a node is its left child exactly when
the left child's box center is closer to the ray origin; in `fromParent` a
box miss moves to the sibling in `fromSibling`, a leaf is tested and then
moves to the sibling in `fromSibling`, and an interior box hit descends to
the near child staying in `fromParent`; in `fromSibling` the same box/leaf
logic applies except misses and processed leaves move to the parent in
`fromChild`; in `fromChild` reaching the root terminates the walk, a node
that is its parent's near child moves to the sibling in `fromSibling`, and
any other node moves to its parent staying in `fromChild`. -/
theorem claim_C2 (E : Externals) (arr : List BVHGPUNode)
    (prims : List Primitive) (objects : List Object)
    (tris : List (ℕ × ℕ × ℕ)) (verts : List Vec3) (ray : Ray)
    (c : TraverseCfg) :
    (bvhInitCfg E arr ray
      = ⟨util_bvh_get_near_child E arr 0 ray.origin, .fromParent, bvhTmpInit, false⟩)
    ∧ (∀ i : ℤ,
        E.glm_distance (boxCenter (getNode arr (getNode arr i).left).bbox) ray.origin
          < E.glm_distance (boxCenter (getNode arr (getNode arr i).right).bbox) ray.origin →
        util_bvh_get_near_child E arr i ray.origin = (getNode arr i).left)
    ∧ (∀ i : ℤ,
        ¬ E.glm_distance (boxCenter (getNode arr (getNode arr i).left).bbox) ray.origin
          < E.glm_distance (boxCenter (getNode arr (getNode arr i).right).bbox) ray.origin →
        util_bvh_get_near_child E arr i ray.origin = (getNode arr i).right)
    ∧ (c.state = .fromParent →
        ¬ E.boundingBoxIntersectionTest (getNode arr c.curr).bbox ray = true →
        traverseStep E arr prims objects tris verts ray c
          = { c with curr := util_bvh_get_sibling arr c.curr, state := .fromSibling })
    ∧ (c.state = .fromParent →
        E.boundingBoxIntersectionTest (getNode arr c.curr).bbox ray = true →
        util_bvh_is_leaf arr c.curr = true →
        traverseStep E arr prims objects tris verts ray c
          = { curr := util_bvh_get_sibling arr c.curr
              state := .fromSibling
              inter := (util_bvh_leaf_intersect E arr prims objects tris verts
                c.curr ray c.inter).1
              intersected := c.intersected || (util_bvh_leaf_intersect E arr prims
                objects tris verts c.curr ray c.inter).2 })
    ∧ (c.state = .fromParent →
        E.boundingBoxIntersectionTest (getNode arr c.curr).bbox ray = true →
        ¬ util_bvh_is_leaf arr c.curr = true →
        traverseStep E arr prims objects tris verts ray c
          = { c with
              curr := util_bvh_get_near_child E arr c.curr ray.origin
              state := .fromParent })
    ∧ (c.state = .fromSibling →
        ¬ E.boundingBoxIntersectionTest (getNode arr c.curr).bbox ray = true →
        traverseStep E arr prims objects tris verts ray c
          = { c with curr := (getNode arr c.curr).parent, state := .fromChild })
    ∧ (c.state = .fromSibling →
        E.boundingBoxIntersectionTest (getNode arr c.curr).bbox ray = true →
        util_bvh_is_leaf arr c.curr = true →
        traverseStep E arr prims objects tris verts ray c
          = { curr := (getNode arr c.curr).parent
              state := .fromChild
              inter := (util_bvh_leaf_intersect E arr prims objects tris verts
                c.curr ray c.inter).1
              intersected := c.intersected || (util_bvh_leaf_intersect E arr prims
                objects tris verts c.curr ray c.inter).2 })
    ∧ (c.state = .fromSibling →
        E.boundingBoxIntersectionTest (getNode arr c.curr).bbox ray = true →
        ¬ util_bvh_is_leaf arr c.curr = true →
        traverseStep E arr prims objects tris verts ray c
          = { c with
              curr := util_bvh_get_near_child E arr c.curr ray.origin
              state := .fromParent })
    ∧ (c.state = .fromChild → c.curr = 0 → traverseDone arr.length c = true)
    ∧ (c.state = .fromChild →
        c.curr = util_bvh_get_near_child E arr (getNode arr c.curr).parent ray.origin →
        traverseStep E arr prims objects tris verts ray c
          = { c with curr := util_bvh_get_sibling arr c.curr, state := .fromSibling })
    ∧ (c.state = .fromChild →
        ¬ c.curr = util_bvh_get_near_child E arr (getNode arr c.curr).parent ray.origin →
        traverseStep E arr prims objects tris verts ray c
          = { c with curr := (getNode arr c.curr).parent, state := .fromChild }) := by
  refine ⟨rfl, ?_, ?_, ?_, ?_, ?_, ?_, ?_, ?_, ?_, ?_, ?_⟩
  · intro i h
    unfold util_bvh_get_near_child
    rw [if_pos h]
  · intro i h
    unfold util_bvh_get_near_child
    rw [if_neg h]
  · intro hs hb
    unfold traverseStep
    rw [hs]
    dsimp only
    rw [if_pos hb]
  · intro hs hb hl
    unfold traverseStep
    rw [hs]
    dsimp only
    rw [if_neg (by simp [hb]), if_pos hl]
  · intro hs hb hl
    unfold traverseStep
    rw [hs]
    dsimp only
    rw [if_neg (by simp [hb]), if_neg hl]
  · intro hs hb
    unfold traverseStep
    rw [hs]
    dsimp only
    rw [if_pos hb]
  · intro hs hb hl
    unfold traverseStep
    rw [hs]
    dsimp only
    rw [if_neg (by simp [hb]), if_pos hl]
  · intro hs hb hl
    unfold traverseStep
    rw [hs]
    dsimp only
    rw [if_neg (by simp [hb]), if_neg hl]
  · intro hs h0
    unfold traverseDone
    simp [hs, h0]
  · intro hs hn
    unfold traverseStep
    rw [hs]
    dsimp only
    rw [if_pos hn]
  · intro hs hn
    unfold traverseStep
    rw [hs]
    dsimp only
    rw [if_neg hn]

theorem exclusive_scan_length (l : List ℕ) : (exclusive_scan l).length = l.length := by
  simp [exclusive_scan]

theorem exclusive_scan_cons (f : ℕ) (fs : List ℕ) :
    exclusive_scan (f :: fs) = 0 :: (exclusive_scan fs).map (fun x => f + x) := by
  unfold exclusive_scan
  rw [List.length_cons, List.range_succ_eq_map, List.map_cons, List.map_map, List.map_map]
  simp [Function.comp_def, List.take_succ_cons]

theorem getLastD_irrel {α : Type} (l : List α) (hne : l ≠ []) (d e : α) :
    l.getLastD d = l.getLastD e := by
  cases l with
  | nil => exact absurd rfl hne
  | cons a m => rw [List.getLastD_cons, List.getLastD_cons]

theorem getLastD_map_of_ne_nil {α β : Type} (g : α → β) (l : List α)
    (hne : l ≠ []) (d : β) (d' : α) :
    (l.map g).getLastD d = g (l.getLastD d') := by
  induction l generalizing d d' with
  | nil => exact absurd rfl hne
  | cons a m ih =>
    cases m with
    | nil => simp
    | cons b m' =>
      rw [List.map_cons, List.getLastD_cons, List.getLastD_cons]
      exact ih (by simp) _ _

theorem compact_count_eq_sum (l : List ℕ) (hne : l ≠ []) :
    (exclusive_scan l).getLastD 0 + l.getLastD 0 = l.sum := by
  induction l with
  | nil => exact absurd rfl hne
  | cons f fs ih =>
    cases fs with
    | nil => simp [exclusive_scan, List.range_succ]
    | cons g m =>
      rw [exclusive_scan_cons, List.getLastD_cons, List.getLastD_cons]
      rw [getLastD_map_of_ne_nil _ _ (by simp [← List.length_eq_zero, exclusive_scan_length]) 0 0]
      rw [getLastD_irrel (g :: m) (by simp) f 0]
      have h := ih (by simp)
      simp only [List.sum_cons] at *
      omega

theorem flags_sum_le_length (l : List ℕ) (h01 : ∀ f ∈ l, f ≤ 1) : l.sum ≤ l.length := by
  induction l with
  | nil => simp
  | cons f fs ih =>
    have hf := h01 f (by simp)
    have := ih (fun g hg => h01 g (by simp [hg]))
    simp only [List.sum_cons, List.length_cons]
    omega

theorem flags_sum_eq_length_iff (l : List ℕ) (h01 : ∀ f ∈ l, f ≤ 1) :
    l.sum = l.length ↔ ∀ f ∈ l, f = 1 := by
  induction l with
  | nil => simp
  | cons f fs ih =>
    have hf := h01 f (by simp)
    have hs := flags_sum_le_length fs (fun g hg => h01 g (by simp [hg]))
    have := ih (fun g hg => h01 g (by simp [hg]))
    simp only [List.sum_cons, List.length_cons, List.mem_cons]
    constructor
    · intro h
      have hf1 : f = 1 := by omega
      have : fs.sum = fs.length := by omega
      intro g hg
      rcases hg with hg | hg
      · exact hg ▸ hf1
      · exact (ih (fun g' hg' => h01 g' (by simp [hg']))).mp this g hg
    · intro h
      have hf1 : f = 1 := h f (Or.inl rfl)
      have : ∀ g ∈ fs, g = 1 := fun g hg => h g (Or.inr hg)
      have := (ih (fun g' hg' => h01 g' (by simp [hg']))).mpr this
      omega

theorem survivors_cons_zero {α : Type} (s : α) (src : List α) (fs : List ℕ) :
    survivors (s :: src) (0 :: fs) = survivors src fs := by
  simp [survivors, List.filter_cons]

theorem survivors_cons_pos {α : Type} (s : α) (src : List α) (f : ℕ) (fs : List ℕ)
    (hf : f ≠ 0) : survivors (s :: src) (f :: fs) = s :: survivors src fs := by
  simp [survivors, List.filter_cons, hf]

theorem survivors_length {α : Type} (src : List α) (flags : List ℕ)
    (hlen : flags.length = src.length) (h01 : ∀ f ∈ flags, f ≤ 1) :
    (survivors src flags).length = flags.sum := by
  induction src generalizing flags with
  | nil =>
    have : flags = [] := by simpa using hlen
    subst this
    simp [survivors]
  | cons s src ih =>
    cases flags with
    | nil => simp at hlen
    | cons f fs =>
      have hf := h01 f (by simp)
      have hfs : ∀ g ∈ fs, g ≤ 1 := fun g hg => h01 g (by simp [hg])
      have hl : fs.length = src.length := by simpa using hlen
      match f, hf with
      | 0, _ => simp [survivors_cons_zero, ih fs hl hfs]
      | 1, _ =>
        rw [survivors_cons_pos s src 1 fs (by omega)]
        simp only [List.length_cons, List.sum_cons, ih fs hl hfs]
        omega

theorem survivors_all_one {α : Type} (src : List α) (flags : List ℕ)
    (hlen : flags.length = src.length) (hall : ∀ f ∈ flags, f = 1) :
    survivors src flags = src := by
  induction src generalizing flags with
  | nil => cases flags <;> simp [survivors]
  | cons s src ih =>
    cases flags with
    | nil => simp at hlen
    | cons f fs =>
      have hf := hall f (by simp)
      rw [hf, survivors_cons_pos s src 1 fs (by omega)]
      rw [ih fs (by simpa using hlen) (fun g hg => hall g (by simp [hg]))]

theorem sum_take_succ_getD (l : List ℕ) (i : ℕ) (hi : i < l.length) :
    (l.take (i + 1)).sum = (l.take i).sum + l.getD i 0 := by
  induction l generalizing i with
  | nil => simp at hi
  | cons f fs ih =>
    cases i with
    | zero => simp
    | succ j =>
      rw [List.take_succ_cons, List.take_succ_cons, List.sum_cons, List.sum_cons]
      rw [ih j (by simpa using hi)]
      simp [List.getD_cons_succ]
      omega

theorem sum_take_mono (l : List ℕ) (i j : ℕ) (hij : i ≤ j) :
    (l.take i).sum ≤ (l.take j).sum := by
  have h1 : (l.take j).take i = l.take i := by
    rw [List.take_take, Nat.min_eq_left hij]
  calc (l.take i).sum = ((l.take j).take i).sum := by rw [h1]
    _ ≤ ((l.take j).take i).sum + ((l.take j).drop i).sum := Nat.le_add_right _ _
    _ = (l.take j).sum := List.sum_take_add_sum_drop _ _

theorem sum_take_lt_of_getD_one (l : List ℕ) (i : ℕ) (hi : i < l.length)
    (h1 : l.getD i 0 = 1) : (l.take i).sum < l.sum := by
  have hs := sum_take_succ_getD l i hi
  have hm := sum_take_mono l (i + 1) l.length hi
  rw [List.take_length] at hm
  omega

theorem survivors_getD {α : Type} (src : List α) (flags : List ℕ) (i : ℕ)
    (hlen : flags.length = src.length) (h01 : ∀ f ∈ flags, f ≤ 1)
    (hi : i < flags.length) (hf : flags.getD i 0 = 1) (d : α) :
    (survivors src flags).getD ((flags.take i).sum) d = src.getD i d := by
  induction src generalizing flags i with
  | nil =>
    have : flags = [] := by simpa using hlen
    subst this
    simp at hi
  | cons s src ih =>
    cases flags with
    | nil => simp at hi
    | cons f fs =>
      have hfl := h01 f (by simp)
      have hfs : ∀ g ∈ fs, g ≤ 1 := fun g hg => h01 g (by simp [hg])
      have hl : fs.length = src.length := by simpa using hlen
      cases i with
      | zero =>
        simp only [List.getD_cons_zero] at hf
        rw [hf, survivors_cons_pos s src 1 fs (by omega)]
        simp
      | succ j =>
        simp only [List.getD_cons_succ] at hf
        have hj : j < fs.length := by simpa using hi
        match f, hfl with
        | 0, _ =>
          rw [survivors_cons_zero]
          simpa using ih fs j hl hfs hj hf
        | 1, _ =>
          rw [survivors_cons_pos s src 1 fs (by omega)]
          simp only [List.take_succ_cons, List.sum_cons, List.getD_cons_succ]
          rw [Nat.add_comm 1 (List.take j fs).sum]
          simp only [List.getD_cons_succ]
          exact ih fs j hl hfs hj hf

theorem getD_take {α : Type} (l : List α) (n i : ℕ) (hi : i < n) (d : α) :
    (l.take n).getD i d = l.getD i d := by
  simp [List.getD_eq_getElem?_getD, List.getElem?_take, hi]

theorem exclusive_scan_getD (l : List ℕ) (i : ℕ) (hi : i < l.length) :
    (exclusive_scan l).getD i 0 = (l.take i).sum := by
  unfold exclusive_scan
  simp [List.getD_eq_getElem?_getD, List.getElem?_map, List.getElem?_range, hi]

/-- The effect of `thrust::scatter_if` driven by an (offset) exclusive scan
of 0/1 flags: the survivors land contiguously at offset `k`, everything
else in the destination buffer is preserved. -/
theorem scatter_if_scan {α : Type} (src : List α) (flags : List ℕ) (k : ℕ)
    (dst : List α) (hlen : flags.length = src.length)
    (h01 : ∀ f ∈ flags, f ≤ 1) (hcap : k + flags.sum ≤ dst.length) :
    scatter_if src ((exclusive_scan flags).map (fun x => x + k)) flags dst
      = dst.take k ++ survivors src flags ++ dst.drop (k + flags.sum) := by
  induction src generalizing flags k dst with
  | nil =>
    have : flags = [] := by simpa using hlen
    subst this
    simp [scatter_if, survivors, List.take_append_drop]
  | cons s src ih =>
    cases flags with
    | nil => simp at hlen
    | cons f fs =>
      have hfl := h01 f (by simp)
      have hfs : ∀ g ∈ fs, g ≤ 1 := fun g hg => h01 g (by simp [hg])
      have hl : fs.length = src.length := by simpa using hlen
      rw [exclusive_scan_cons, List.map_cons, List.map_map]
      match f, hfl with
      | 0, _ =>
        simp only [scatter_if]
        rw [if_neg (by simp)]
        have hmap : ((fun x => x + k) ∘ fun x => 0 + x) = (fun x => x + k) := by
          funext x
          simp
        rw [hmap]
        rw [survivors_cons_zero]
        have hcap' : k + fs.sum ≤ dst.length := by
          simp only [List.sum_cons] at hcap
          omega
        have := ih fs k dst hl hfs hcap'
        simpa [List.sum_cons] using this
      | 1, _ =>
        simp only [scatter_if]
        rw [if_pos (by simp)]
        have hk : k < dst.length := by
          simp only [List.sum_cons] at hcap
          omega
        have hmap : ((fun x => x + k) ∘ fun x => 1 + x) = (fun x => x + (k + 1)) := by
          funext x
          simp only [Function.comp_apply]
          omega
        rw [hmap]
        simp only [Nat.zero_add]
        have hcap' : (k + 1) + fs.sum ≤ (dst.set k s).length := by
          simp only [List.sum_cons] at hcap
          simp only [List.length_set]
          omega
        rw [ih fs (k + 1) (dst.set k s) hl hfs hcap']
        rw [survivors_cons_pos s src 1 fs (by omega)]
        have htake : (dst.set k s).take (k + 1) = dst.take k ++ [s] := by
          rw [List.set_eq_take_cons_drop s hk, List.take_append_eq_append_take]
          rw [List.take_of_length_le (by simp only [List.length_take]; omega)]
          congr 1
          have h1 : k + 1 - (dst.take k).length = 1 := by
            simp only [List.length_take]
            omega
          rw [h1]
          rfl
        have hdrop : (dst.set k s).drop (k + 1 + fs.sum) = dst.drop (k + 1 + fs.sum) := by
          exact List.drop_set_of_lt s dst (by omega)
        rw [htake, hdrop]
        simp only [List.sum_cons, List.append_assoc, List.cons_append, List.nil_append]
        have : k + (1 + fs.sum) = k + 1 + fs.sum := by omega
        rw [this]

/-- The compacted active prefix produced by `compact_rays` without material
sort: the survivors of the old active prefix, in order, followed by the
untouched tail of the destination buffer. -/
theorem compact_rays_paths1 (E : Externals) (numRays : ℕ) (flags : List ℕ)
    (paths1 paths2 : List PathSegment)
    (inters1 inters2 : List ShadeableIntersection)
    (hlen : flags.length = numRays) (h01 : ∀ f ∈ flags, f ≤ 1)
    (hcap1 : numRays ≤ paths1.length) (hcap2 : numRays ≤ paths2.length) :
    (compact_rays E false numRays flags paths1 paths2 inters1 inters2).paths1
      = survivors (paths1.take numRays) flags ++ paths2.drop flags.sum := by
  unfold compact_rays
  dsimp only
  rw [if_neg (by simp)]
  have hlen' : flags.length = (paths1.take numRays).length := by
    simp [List.length_take]
    omega
  have hcap' : 0 + flags.sum ≤ paths2.length := by
    have := flags_sum_le_length flags h01
    omega
  have h := scatter_if_scan (paths1.take numRays) flags 0 paths2 hlen' h01 hcap'
  have hmap : (exclusive_scan flags).map (fun x => x + 0) = exclusive_scan flags := by
    simp
  rw [hmap] at h
  rw [h]
  simp

/-- Claim C3: for `N ≥ 1` active paths and 0/1 validity flags, compaction
assigns each surviving path the output slot equal to the exclusive prefix
sum of the flags at its index, and returns a new active count equal to the
scan's last value plus the last flag; this count equals the number of set
flags, never exceeds `N`, and equals `N` exactly when every flag is 1. -/
theorem claim_C3 (E : Externals) (numRays : ℕ) (flags : List ℕ)
    (paths1 paths2 : List PathSegment)
    (inters1 inters2 : List ShadeableIntersection) (r : CompactResult)
    (hr : r = compact_rays E false numRays flags paths1 paths2 inters1 inters2)
    (hlen : flags.length = numRays) (hN : 1 ≤ numRays)
    (h01 : ∀ f ∈ flags, f ≤ 1)
    (hcap1 : numRays ≤ paths1.length) (hcap2 : numRays ≤ paths2.length) :
    r.nextNumRays = (exclusive_scan flags).getLastD 0 + flags.getLastD 0
    ∧ r.nextNumRays = flags.sum
    ∧ r.nextNumRays ≤ numRays
    ∧ (r.nextNumRays = numRays ↔ ∀ f ∈ flags, f = 1)
    ∧ (∀ i, i < numRays → flags.getD i 0 = 1 →
        r.paths1.getD ((exclusive_scan flags).getD i 0) segDefault
          = paths1.getD i segDefault) := by
  have hne : flags ≠ [] := by
    intro h
    rw [h] at hlen
    simp at hlen
    omega
  have hcnt : r.nextNumRays = (exclusive_scan flags).getLastD 0 + flags.getLastD 0 := by
    subst hr
    unfold compact_rays
    rfl
  have hsum : r.nextNumRays = flags.sum := by
    rw [hcnt]
    exact compact_count_eq_sum flags hne
  refine ⟨hcnt, hsum, ?_, ?_, ?_⟩
  · rw [hsum, ← hlen]
    exact flags_sum_le_length flags h01
  · rw [hsum, ← hlen]
    exact flags_sum_eq_length_iff flags h01
  · intro i hi hfi
    have hi' : i < flags.length := by omega
    rw [exclusive_scan_getD flags i hi']
    have hp := compact_rays_paths1 E numRays flags paths1 paths2 inters1 inters2
      hlen h01 hcap1 hcap2
    rw [← hr] at hp
    rw [hp]
    have hslen : (survivors (paths1.take numRays) flags).length = flags.sum := by
      apply survivors_length
      · simp [List.length_take]
        omega
      · exact h01
    rw [List.getD_append _ _ _ _ (by rw [hslen]; exact sum_take_lt_of_getD_one flags i hi' hfi)]
    rw [survivors_getD (paths1.take numRays) flags i
      (by simp [List.length_take]; omega) h01 hi' hfi segDefault]
    exact getD_take paths1 numRays i hi segDefault

/-- Witness for C3: flags `[1,0,1]` on three paths compact to count 2 with
slots 0 and 1. -/
theorem claim_C3_witness :
    (compact_rays Etest false 3 [1, 0, 1]
      [segDefault, { segDefault with pixelIndex := 1 }, { segDefault with pixelIndex := 2 }]
      (List.replicate 3 segDefault) [] []).nextNumRays = 2
    ∧ (compact_rays Etest false 3 [1, 0, 1]
        [segDefault, { segDefault with pixelIndex := 1 }, { segDefault with pixelIndex := 2 }]
        (List.replicate 3 segDefault) [] []).paths1.getD 1 segDefault
      = { segDefault with pixelIndex := 2 } := by
  have h := claim_C3 Etest 3 [1, 0, 1]
    [segDefault, { segDefault with pixelIndex := 1 }, { segDefault with pixelIndex := 2 }]
    (List.replicate 3 segDefault) [] [] _ rfl (by decide) (by decide) (by decide)
    (by decide) (by decide)
  refine ⟨by rw [h.2.1]; decide, ?_⟩
  have h5 := h.2.2.2.2 2 (by decide) (by decide)
  rw [show (exclusive_scan [1, 0, 1]).getD 2 0 = 1 by decide] at h5
  rw [h5]
  decide

/-- Claim C4: without material sort, compaction preserves the relative order
of surviving paths (an earlier survivor lands at a strictly smaller slot,
and both keep their contents), and on an all-valid input it is idempotent:
the count stays `N` and the active prefix is unchanged. -/
theorem claim_C4 (E : Externals) (numRays : ℕ) (flags : List ℕ)
    (paths1 paths2 : List PathSegment)
    (inters1 inters2 : List ShadeableIntersection) (r : CompactResult)
    (hr : r = compact_rays E false numRays flags paths1 paths2 inters1 inters2)
    (hlen : flags.length = numRays) (hN : 1 ≤ numRays)
    (h01 : ∀ f ∈ flags, f ≤ 1)
    (hcap1 : numRays ≤ paths1.length) (hcap2 : numRays ≤ paths2.length) :
    (∀ i j, i < j → j < numRays → flags.getD i 0 = 1 → flags.getD j 0 = 1 →
      (exclusive_scan flags).getD i 0 < (exclusive_scan flags).getD j 0
      ∧ r.paths1.getD ((exclusive_scan flags).getD i 0) segDefault
          = paths1.getD i segDefault
      ∧ r.paths1.getD ((exclusive_scan flags).getD j 0) segDefault
          = paths1.getD j segDefault)
    ∧ ((∀ f ∈ flags, f = 1) →
        r.nextNumRays = numRays ∧ r.paths1.take numRays = paths1.take numRays) := by
  have hc3 := claim_C3 E numRays flags paths1 paths2 inters1 inters2 r hr
    hlen hN h01 hcap1 hcap2
  constructor
  · intro i j hij hj hfi hfj
    have hi : i < numRays := by omega
    refine ⟨?_, hc3.2.2.2.2 i hi hfi, hc3.2.2.2.2 j hj hfj⟩
    rw [exclusive_scan_getD flags i (by omega), exclusive_scan_getD flags j (by omega)]
    have h1 : (flags.take (i+1)).sum = (flags.take i).sum + 1 := by
      rw [sum_take_succ_getD flags i (by omega), hfi]
    have h2 : (flags.take (i+1)).sum ≤ (flags.take j).sum := sum_take_mono flags (i+1) j hij
    omega
  · intro hall
    refine ⟨hc3.2.2.2.1.mpr hall, ?_⟩
    have hp := compact_rays_paths1 E numRays flags paths1 paths2 inters1 inters2
      hlen h01 hcap1 hcap2
    rw [← hr] at hp
    rw [hp]
    rw [survivors_all_one (paths1.take numRays) flags
      (by simp only [List.length_take]; omega) hall]
    rw [List.take_append_eq_append_take]
    rw [List.take_of_length_le (by simp only [List.length_take]; omega)]
    have h2 : numRays - (paths1.take numRays).length = 0 := by
      simp only [List.length_take]
      omega
    rw [h2]
    simp

/-- Witness for C4: with flags `[1,1]` both survivors keep order, and the
all-valid input is reproduced unchanged. -/
theorem claim_C4_witness :
    ((compact_rays Etest false 2 [1, 1]
        [segDefault, { segDefault with pixelIndex := 1 }]
        (List.replicate 2 segDefault) [] []).paths1.getD 0 segDefault
      = segDefault)
    ∧ (compact_rays Etest false 2 [1, 1]
        [segDefault, { segDefault with pixelIndex := 1 }]
        (List.replicate 2 segDefault) [] []).paths1.take 2
      = [segDefault, { segDefault with pixelIndex := 1 }] := by
  have h := claim_C4 Etest 2 [1, 1]
    [segDefault, { segDefault with pixelIndex := 1 }]
    (List.replicate 2 segDefault) [] [] _ rfl (by decide) (by decide) (by decide)
    (by decide) (by decide)
  have ho := h.1 0 1 (by decide) (by decide) (by decide) (by decide)
  have hi := h.2 (by decide)
  refine ⟨?_, ?_⟩
  · have := ho.2.1
    rw [show (exclusive_scan [1, 1]).getD 0 0 = 0 by decide] at this
    rw [this]
    decide
  · rw [hi.2]
    decide

theorem FQ_add_assoc (a b c : FQ) : (a.add b).add c = a.add (b.add c) := by
  cases a <;> cases b <;> cases c <;> simp [FQ.add] <;> ring

theorem cadd_assoc (a b c : CVec) : cadd (cadd a b) c = cadd a (cadd b c) := by
  simp [cadd, FQ_add_assoc]

theorem cadd_czero (a : CVec) : cadd a czero = a := by
  cases a with
  | mk x y z => cases x <;> cases y <;> cases z <;> simp [cadd, czero, FQ.add]

theorem czero_cadd (a : CVec) : cadd czero a = a := by
  cases a with
  | mk x y z => cases x <;> cases y <;> cases z <;> simp [cadd, czero, FQ.add]

theorem foldl_cadd_shift (l : List CVec) (a b : CVec) :
    l.foldl cadd (cadd a b) = cadd a (l.foldl cadd b) := by
  induction l generalizing b with
  | nil => rfl
  | cons c m ih => rw [List.foldl_cons, List.foldl_cons, cadd_assoc, ih]

theorem csum_cons (c : CVec) (l : List CVec) : csum (c :: l) = cadd c (csum l) := by
  unfold csum
  rw [List.foldl_cons, czero_cadd, ← foldl_cadd_shift l c czero]
  rw [cadd_czero]

/-- Pointwise effect of the `finalGather` fold over any path list: pixel `p`
receives its old value plus the ordered sum of the colors of exactly those
paths whose pixel is `p` and whose color has no NaN component. -/
theorem gatherFold_getD (l : List PathSegment) (image : List CVec)
    (hpix : ∀ s ∈ l, s.pixelIndex < image.length) (p : ℕ)
    (hp : p < image.length) :
    (l.foldl
      (fun img q =>
        if ¬ util_math_is_nan q.color then
          img.set q.pixelIndex (cadd (img.getD q.pixelIndex czero) q.color)
        else img)
      image).getD p czero
      = cadd (image.getD p czero)
          (csum ((l.filter
            (fun s => s.pixelIndex == p && !util_math_is_nan s.color)).map
              PathSegment.color)) := by
  induction l generalizing image with
  | nil => simp [csum, cadd_czero]
  | cons s m ih =>
    have hs := hpix s (by simp)
    have hm : ∀ q ∈ m, q.pixelIndex < image.length := fun q hq => hpix q (by simp [hq])
    rw [List.foldl_cons, List.filter_cons]
    by_cases hn : util_math_is_nan s.color = true
    · rw [if_neg (by simp [hn])]
      have : (s.pixelIndex == p && !util_math_is_nan s.color) = false := by
        simp [hn]
      rw [this]
      simp only [Bool.false_eq_true, if_false]
      exact ih image hm hp
    · rw [if_pos (by simp [hn])]
      set image' := image.set s.pixelIndex (cadd (image.getD s.pixelIndex czero) s.color) with him
      have hm' : ∀ q ∈ m, q.pixelIndex < image'.length := by
        intro q hq
        rw [him, List.length_set]
        exact hm q hq
      have hp' : p < image'.length := by
        rw [him, List.length_set]
        exact hp
      rw [ih image' hm' hp']
      by_cases hpx : s.pixelIndex = p
      · have hcond : (s.pixelIndex == p && !util_math_is_nan s.color) = true := by
          simp [hpx, hn]
        rw [hcond]
        simp only [if_true]
        rw [List.map_cons, csum_cons]
        have : image'.getD p czero = cadd (image.getD p czero) s.color := by
          rw [him, hpx]
          simp [List.getD_eq_getElem?_getD, List.getElem?_set_self', hp]
        rw [this, cadd_assoc]
      · have hcond : (s.pixelIndex == p && !util_math_is_nan s.color) = false := by
          simp [hpx]
        rw [hcond]
        simp only [Bool.false_eq_true, if_false]
        have : image'.getD p czero = image.getD p czero := by
          rw [him]
          simp [List.getD_eq_getElem?_getD, List.getElem?_set_ne, hpx]
        rw [this]

/-- Claim C9: every path still active when the bounce loop exits contributes
its current throughput to the image at its own pixel exactly once for the
iteration (it appears exactly once in the summed contribution list of its
pixel), and a throughput with a NaN component is dropped rather than
accumulated. -/
theorem claim_C9 (st : LoopState)
    (hpix : ∀ s ∈ st.paths1.take st.numRays, s.pixelIndex < st.image.length)
    (p : ℕ) (hp : p < st.image.length) :
    (pathtraceGather st).getD p czero
      = cadd (st.image.getD p czero)
          (csum (((st.paths1.take st.numRays).filter
            (fun s => s.pixelIndex == p && !util_math_is_nan s.color)).map
              PathSegment.color)) := by
  unfold pathtraceGather
  by_cases h0 : st.numRays ≠ 0
  · rw [if_pos h0]
    unfold finalGather
    exact gatherFold_getD (st.paths1.take st.numRays) st.image hpix p hp
  · rw [if_neg h0]
    push_neg at h0
    rw [h0]
    simp [csum, cadd_czero]

/-- Witness for C9: one active path at pixel 0 deposits its throughput into
a 2-pixel image. -/
theorem claim_C9_witness :
    (pathtraceGather
        { numRays := 1
          depth := 8
          paths1 := [{ segDefault with color := cwhite }]
          paths2 := []
          inters1 := []
          inters2 := []
          image := [czero, czero] }).getD 0 czero
      = cadd czero (csum [cwhite]) := by
  have h := claim_C9
    { numRays := 1
      depth := 8
      paths1 := [{ segDefault with color := cwhite }]
      paths2 := []
      inters1 := []
      inters2 := []
      image := [czero, czero] } (by decide) 0 (by decide)
  rw [h]
  rfl

/-- Counterexample to claim C7 as stated: the scatter kernel's engine is
seeded by `makeSeededRandomEngine(iter, idx, 0)`, where `idx` is the
compacted slot index of the lane (and the depth argument is the constant 0),
so — instantiating the external `utilhash` with the identity stand-in — the
seed is not a function of the (pixel index, iteration, depth) tuple: two
lanes serving the same pixel, iteration and depth at slots 0 and 1 get
different seeds. -/
theorem claim_C7_counterexample :
    ¬ ∃ f : ℕ → ℕ → ℕ → ℕ, ∀ (iter idx : ℕ) (seg : PathSegment) (depth : ℕ),
        makeSeededRandomEngine Etest iter idx 0 = f seg.pixelIndex iter depth := by
  rintro ⟨f, hf⟩
  have h0 := hf 1 0 { segDefault with pixelIndex := 5 } 0
  have h1 := hf 1 1 { segDefault with pixelIndex := 5 } 0
  have heq : makeSeededRandomEngine Etest 1 0 0 = makeSeededRandomEngine Etest 1 1 0 :=
    h0.trans h1.symm
  exact absurd heq (by decide)

/-- Claim C7 amended: path generation is deterministic — the generation pass
ignores the previous buffer contents entirely, and the segment written at a
buffer slot is a pure function of the camera, iteration index, trace depth
and the slot's pixel coordinates (its engine seed being
`makeSeededRandomEngine x y iter`), so re-running the same iteration on
identical scene input reproduces the generation output bit for bit.  (The
scatter engines, by contrast, are seeded from (iteration, compacted slot
index, 0) — see the counterexample.) -/
theorem claim_C7_amended (E : Externals) (cam : Camera) (iter : ℕ)
    (traceDepth : ℤ) (prev1 prev2 : List PathSegment) :
    generateRayFromCamera E cam iter traceDepth prev1
      = generateRayFromCamera E cam iter traceDepth prev2
    ∧ (∀ idx, idx < cam.resolution.1 * cam.resolution.2 →
        (generateRayFromCamera E cam iter traceDepth prev1).getD idx segDefault
          = generateRayFromCamera_one E cam iter traceDepth
              (idx % cam.resolution.1) (idx / cam.resolution.1)) := by
  constructor
  · rfl
  · intro idx hidx
    unfold generateRayFromCamera
    simp [List.getD_eq_getElem?_getD, List.getElem?_map, List.getElem?_range, hidx]

/-- Witness for the amended C7 at a concrete camera: slot 0 of the
generation pass is the pure per-pixel segment of pixel (0,0). -/
theorem claim_C7_witness :
    (generateRayFromCamera Etest wCam 1 8 []).getD 0 segDefault
      = generateRayFromCamera_one Etest wCam 1 8 0 0 := by
  have h := (claim_C7_amended Etest wCam 1 8 [] []).2 0 (by decide)
  simpa using h

theorem bounceRound_depth_eq (E : Externals) (fuel iter : ℕ)
    (materials : List Material) (arr : List BVHGPUNode) (prims : List Primitive)
    (objects : List Object) (tris : List (ℕ × ℕ × ℕ)) (verts : List Vec3)
    (sortByMat : Bool) (st : LoopState) :
    (bounceRound E fuel iter materials arr prims objects tris verts sortByMat st).1.depth
      = st.depth + 1 := by
  unfold bounceRound
  dsimp only
  split <;> rfl

theorem bounceRound_break_numRays (E : Externals) (fuel iter : ℕ)
    (materials : List Material) (arr : List BVHGPUNode) (prims : List Primitive)
    (objects : List Object) (tris : List (ℕ × ℕ × ℕ)) (verts : List Vec3)
    (sortByMat : Bool) (st : LoopState)
    (hb : (bounceRound E fuel iter materials arr prims objects tris verts sortByMat st).2
      = true) :
    (bounceRound E fuel iter materials arr prims objects tris verts sortByMat st).1.numRays
      = 0 := by
  have hcases : (bounceRound E fuel iter materials arr prims objects tris verts sortByMat st).2 = false
      ∨ (bounceRound E fuel iter materials arr prims objects tris verts sortByMat st).1.numRays = 0 := by
    unfold bounceRound
    dsimp only
    split
    · right
      rfl
    · left
      rfl
  rcases hcases with hc | hc
  · rw [hb] at hc
    exact absurd hc (by simp)
  · exact hc

theorem bounceLoop_stop (E : Externals) (fuel iter : ℕ)
    (materials : List Material) (arr : List BVHGPUNode) (prims : List Primitive)
    (objects : List Object) (tris : List (ℕ × ℕ × ℕ)) (verts : List Vec3)
    (sortByMat : Bool) (st : LoopState)
    (h : ¬ (st.numRays ≠ 0 ∧ st.depth < MAX_ITER)) :
    bounceLoop E fuel iter materials arr prims objects tris verts sortByMat st = st := by
  rw [bounceLoop]
  rw [dif_neg h]

theorem bounceLoop_go (E : Externals) (fuel iter : ℕ)
    (materials : List Material) (arr : List BVHGPUNode) (prims : List Primitive)
    (objects : List Object) (tris : List (ℕ × ℕ × ℕ)) (verts : List Vec3)
    (sortByMat : Bool) (st : LoopState)
    (h : st.numRays ≠ 0 ∧ st.depth < MAX_ITER) :
    bounceLoop E fuel iter materials arr prims objects tris verts sortByMat st
      = (if (bounceRound E fuel iter materials arr prims objects tris verts sortByMat st).2
          then (bounceRound E fuel iter materials arr prims objects tris verts sortByMat st).1
          else bounceLoop E fuel iter materials arr prims objects tris verts sortByMat
            (bounceRound E fuel iter materials arr prims objects tris verts sortByMat st).1) := by
  rw [bounceLoop]
  rw [dif_pos h]

theorem bounceLoop_exit (E : Externals) (fuel iter : ℕ)
    (materials : List Material) (arr : List BVHGPUNode) (prims : List Primitive)
    (objects : List Object) (tris : List (ℕ × ℕ × ℕ)) (verts : List Vec3)
    (sortByMat : Bool) (st : LoopState) :
    (bounceLoop E fuel iter materials arr prims objects tris verts sortByMat st).numRays = 0
    ∨ MAX_ITER ≤ (bounceLoop E fuel iter materials arr prims objects tris verts sortByMat st).depth := by
  suffices h : ∀ (n : ℕ) (st : LoopState), MAX_ITER - st.depth ≤ n →
      (bounceLoop E fuel iter materials arr prims objects tris verts sortByMat st).numRays = 0
      ∨ MAX_ITER ≤ (bounceLoop E fuel iter materials arr prims objects tris verts sortByMat st).depth by
    exact h (MAX_ITER - st.depth) st le_rfl
  intro n
  induction n with
  | zero =>
    intro st hst
    rw [bounceLoop_stop E fuel iter materials arr prims objects tris verts sortByMat st
      (by omega)]
    right
    omega
  | succ n ih =>
    intro st hst
    by_cases hg : st.numRays ≠ 0 ∧ st.depth < MAX_ITER
    · rw [bounceLoop_go E fuel iter materials arr prims objects tris verts sortByMat st hg]
      by_cases hb : (bounceRound E fuel iter materials arr prims objects tris verts sortByMat st).2 = true
      · rw [if_pos hb]
        left
        exact bounceRound_break_numRays E fuel iter materials arr prims objects tris verts
          sortByMat st hb
      · rw [if_neg hb]
        apply ih
        rw [bounceRound_depth_eq]
        omega
    · rw [bounceLoop_stop E fuel iter materials arr prims objects tris verts sortByMat st hg]
      omega

theorem getD_map_eraseRB (paths : List PathSegment) (i : ℕ) :
    (paths.map eraseRB).getD i segDefault = eraseRB (paths.getD i segDefault) := by
  rw [List.getD_eq_getElem?_getD, List.getD_eq_getElem?_getD, List.getElem?_map]
  cases paths[i]? <;> rfl

/-- The intersection stage reads only the rays of the path buffer, which
erasing the remaining-bounce counters leaves unchanged. -/
theorem intersectPassBVH_eraseRB (E : Externals) (fuel : ℕ)
    (materials : List Material) (arr : List BVHGPUNode) (prims : List Primitive)
    (objects : List Object) (tris : List (ℕ × ℕ × ℕ)) (verts : List Vec3)
    (numRays : ℕ) (paths : List PathSegment)
    (inters : List ShadeableIntersection) :
    intersectPassBVH E fuel materials arr prims objects tris verts numRays
        (paths.map eraseRB) inters
      = intersectPassBVH E fuel materials arr prims objects tris verts numRays
          paths inters := by
  unfold intersectPassBVH
  have h : ∀ i, ((paths.map eraseRB).getD i segDefault).ray
      = (paths.getD i segDefault).ray := by
    intro i
    rw [getD_map_eraseRB]
    rfl
  simp only [h]

/-- The scatter kernel never reads the remaining-bounce counter and writes
only the color and ray of its segment. -/
theorem scatter_one_eraseRB (E : Externals) (iter idx : ℕ)
    (intersection : ShadeableIntersection) (seg : PathSegment)
    (materials : List Material) (image : List CVec) :
    scatter_on_intersection_one E iter idx intersection (eraseRB seg) materials image
      = (eraseRB (scatter_on_intersection_one E iter idx intersection seg materials image).1,
         (scatter_on_intersection_one E iter idx intersection seg materials image).2.1,
         (scatter_on_intersection_one E iter idx intersection seg materials image).2.2) := by
  unfold scatter_on_intersection_one
  dsimp only [eraseRB]
  split
  · rfl
  · repeat' split
    all_goals rfl

theorem scatter_if_map {α β : Type} (g : α → β) :
    ∀ (src : List α) (idx stencil : List ℕ) (dst : List α),
      scatter_if (src.map g) idx stencil (dst.map g)
        = (scatter_if src idx stencil dst).map g := by
  intro src
  induction src with
  | nil =>
    intro idx stencil dst
    cases idx <;> cases stencil <;> rfl
  | cons s src ih =>
    intro idx stencil dst
    cases idx with
    | nil => cases stencil <;> rfl
    | cons i idx =>
      cases stencil with
      | nil => rfl
      | cons f fs =>
        have hstepL : scatter_if ((s :: src).map g) (i :: idx) (f :: fs) (dst.map g)
            = scatter_if (src.map g) idx fs
                (if f ≠ 0 then (dst.map g).set i (g s) else dst.map g) := rfl
        have hstepR : scatter_if (s :: src) (i :: idx) (f :: fs) dst
            = scatter_if src idx fs (if f ≠ 0 then dst.set i s else dst) := rfl
        rw [hstepL, hstepR]
        by_cases hf : f ≠ 0
        · rw [if_pos hf, if_pos hf, ← List.map_set, ih]
        · rw [if_neg hf, if_neg hf, ih]

/-- Compaction without material sort commutes with erasing the counters. -/
theorem compact_rays_eraseRB (E : Externals) (n : ℕ) (flags : List ℕ)
    (p1 p2 : List PathSegment) (i1 i2 : List ShadeableIntersection) :
    compact_rays E false n flags (p1.map eraseRB) (p2.map eraseRB) i1 i2
      = { nextNumRays := (compact_rays E false n flags p1 p2 i1 i2).nextNumRays
          paths1 := (compact_rays E false n flags p1 p2 i1 i2).paths1.map eraseRB
          paths2 := (compact_rays E false n flags p1 p2 i1 i2).paths2.map eraseRB
          inters1 := (compact_rays E false n flags p1 p2 i1 i2).inters1
          inters2 := (compact_rays E false n flags p1 p2 i1 i2).inters2 } := by
  unfold compact_rays
  dsimp only
  rw [if_neg (by simp), if_neg (by simp)]
  rw [← List.map_take, scatter_if_map]

theorem scatterStep_eraseRB (E : Externals) (iter : ℕ) (materials : List Material)
    (inters : List ShadeableIntersection) (paths : List PathSegment)
    (flags : List ℕ) (image : List CVec) (i : ℕ) :
    scatterStep E iter materials inters (paths.map eraseRB, flags, image) i
      = ((scatterStep E iter materials inters (paths, flags, image) i).1.map eraseRB,
         (scatterStep E iter materials inters (paths, flags, image) i).2.1,
         (scatterStep E iter materials inters (paths, flags, image) i).2.2) := by
  unfold scatterStep
  dsimp only
  rw [getD_map_eraseRB, scatter_one_eraseRB]
  rw [List.map_set]

theorem scatterPass_eraseRB (E : Externals) (iter numRays : ℕ)
    (materials : List Material) (inters : List ShadeableIntersection)
    (paths : List PathSegment) (image : List CVec) :
    scatterPass E iter numRays materials inters (paths.map eraseRB) image
      = ((scatterPass E iter numRays materials inters paths image).1.map eraseRB,
         (scatterPass E iter numRays materials inters paths image).2.1,
         (scatterPass E iter numRays materials inters paths image).2.2) := by
  unfold scatterPass
  suffices h : ∀ (l : List ℕ) (paths : List PathSegment) (flags : List ℕ) (image : List CVec),
      l.foldl (scatterStep E iter materials inters) (paths.map eraseRB, flags, image)
        = ((l.foldl (scatterStep E iter materials inters) (paths, flags, image)).1.map eraseRB,
           (l.foldl (scatterStep E iter materials inters) (paths, flags, image)).2.1,
           (l.foldl (scatterStep E iter materials inters) (paths, flags, image)).2.2) by
    exact h (List.range numRays) paths [] image
  intro l
  induction l with
  | nil => intro paths flags image; rfl
  | cons i l ih =>
    intro paths flags image
    rw [List.foldl_cons, List.foldl_cons]
    rw [scatterStep_eraseRB]
    exact ih _ _ _

theorem eraseState_numRays (st : LoopState) : (eraseState st).numRays = st.numRays := rfl

theorem eraseState_depth (st : LoopState) : (eraseState st).depth = st.depth := rfl

/-- One loop round commutes with erasing every remaining-bounce counter:
no stage of the round reads the counters. -/
theorem bounceRound_eraseRB (E : Externals) (fuel iter : ℕ)
    (materials : List Material) (arr : List BVHGPUNode) (prims : List Primitive)
    (objects : List Object) (tris : List (ℕ × ℕ × ℕ)) (verts : List Vec3)
    (st : LoopState) :
    bounceRound E fuel iter materials arr prims objects tris verts false (eraseState st)
      = (eraseState (bounceRound E fuel iter materials arr prims objects tris verts false st).1,
         (bounceRound E fuel iter materials arr prims objects tris verts false st).2) := by
  unfold bounceRound
  dsimp only [eraseState]
  rw [intersectPassBVH_eraseRB, compact_rays_eraseRB]
  dsimp only
  split
  · rfl
  · rw [scatterPass_eraseRB, compact_rays_eraseRB]

/-- The whole bounce loop commutes with erasing the counters: they are
never read back. -/
theorem bounceLoop_eraseRB (E : Externals) (fuel iter : ℕ)
    (materials : List Material) (arr : List BVHGPUNode) (prims : List Primitive)
    (objects : List Object) (tris : List (ℕ × ℕ × ℕ)) (verts : List Vec3)
    (st : LoopState) :
    bounceLoop E fuel iter materials arr prims objects tris verts false (eraseState st)
      = eraseState (bounceLoop E fuel iter materials arr prims objects tris verts false st) := by
  suffices h : ∀ (n : ℕ) (st : LoopState), MAX_ITER - st.depth ≤ n →
      bounceLoop E fuel iter materials arr prims objects tris verts false (eraseState st)
        = eraseState (bounceLoop E fuel iter materials arr prims objects tris verts false st) by
    exact h (MAX_ITER - st.depth) st le_rfl
  intro n
  induction n with
  | zero =>
    intro st hst
    have hg : ¬ (st.numRays ≠ 0 ∧ st.depth < MAX_ITER) := by omega
    have hg' : ¬ ((eraseState st).numRays ≠ 0 ∧ (eraseState st).depth < MAX_ITER) := by
      rw [eraseState_numRays, eraseState_depth]
      exact hg
    rw [bounceLoop_stop E fuel iter materials arr prims objects tris verts false st hg]
    rw [bounceLoop_stop E fuel iter materials arr prims objects tris verts false (eraseState st) hg']
  | succ n ih =>
    intro st hst
    by_cases hg : st.numRays ≠ 0 ∧ st.depth < MAX_ITER
    · have hg' : (eraseState st).numRays ≠ 0 ∧ (eraseState st).depth < MAX_ITER := by
        rw [eraseState_numRays, eraseState_depth]
        exact hg
      rw [bounceLoop_go E fuel iter materials arr prims objects tris verts false st hg]
      rw [bounceLoop_go E fuel iter materials arr prims objects tris verts false (eraseState st) hg']
      rw [bounceRound_eraseRB]
      by_cases hb : (bounceRound E fuel iter materials arr prims objects tris verts false st).2 = true
      · rw [if_pos hb, if_pos hb]
      · rw [if_neg hb, if_neg hb]
        apply ih
        rw [bounceRound_depth_eq]
        omega
    · have hg' : ¬ ((eraseState st).numRays ≠ 0 ∧ (eraseState st).depth < MAX_ITER) := by
        rw [eraseState_numRays, eraseState_depth]
        exact hg
      rw [bounceLoop_stop E fuel iter materials arr prims objects tris verts false st hg]
      rw [bounceLoop_stop E fuel iter materials arr prims objects tris verts false (eraseState st) hg']

/-- Claim C8: the bounce loop runs exactly while the active-ray count is
positive and the global depth counter is below `MAX_ITER` (with the
mid-round break when compaction empties the active set); on exit the active
set is empty or the cap is reached; the per-path remaining-bounce counters
are initialized at generation to the trace depth but are never read back:
erasing all of them commutes with the whole loop, so the global cap is the
only effective backstop. -/
theorem claim_C8 (E : Externals) (fuel iter : ℕ) (materials : List Material)
    (arr : List BVHGPUNode) (prims : List Primitive) (objects : List Object)
    (tris : List (ℕ × ℕ × ℕ)) (verts : List Vec3) (cam : Camera)
    (traceDepth : ℤ) (x y : ℕ) (st : LoopState) :
    (generateRayFromCamera_one E cam iter traceDepth x y).remainingBounces = traceDepth
    ∧ (¬ (st.numRays ≠ 0 ∧ st.depth < MAX_ITER) →
        bounceLoop E fuel iter materials arr prims objects tris verts false st = st)
    ∧ (st.numRays ≠ 0 ∧ st.depth < MAX_ITER →
        bounceLoop E fuel iter materials arr prims objects tris verts false st
          = (if (bounceRound E fuel iter materials arr prims objects tris verts false st).2
              then (bounceRound E fuel iter materials arr prims objects tris verts false st).1
              else bounceLoop E fuel iter materials arr prims objects tris verts false
                (bounceRound E fuel iter materials arr prims objects tris verts false st).1))
    ∧ ((bounceLoop E fuel iter materials arr prims objects tris verts false st).numRays = 0
        ∨ MAX_ITER ≤ (bounceLoop E fuel iter materials arr prims objects tris verts false st).depth)
    ∧ bounceLoop E fuel iter materials arr prims objects tris verts false (eraseState st)
        = eraseState (bounceLoop E fuel iter materials arr prims objects tris verts false st) := by
  refine ⟨rfl, ?_, ?_, ?_, ?_⟩
  · exact bounceLoop_stop E fuel iter materials arr prims objects tris verts false st
  · exact bounceLoop_go E fuel iter materials arr prims objects tris verts false st
  · exact bounceLoop_exit E fuel iter materials arr prims objects tris verts false st
  · exact bounceLoop_eraseRB E fuel iter materials arr prims objects tris verts st

/-- Witness for C8 at a concrete empty active set: the loop is a no-op. -/
theorem claim_C8_witness :
    bounceLoop Etest 10 1 [] [] [] [] [] [] false
      { numRays := 0
        depth := 0
        paths1 := []
        paths2 := []
        inters1 := []
        inters2 := []
        image := [] }
      = { numRays := 0
          depth := 0
          paths1 := []
          paths2 := []
          inters1 := []
          inters2 := []
          image := [] } := by
  exact (claim_C8 Etest 10 1 [] [] [] [] [] [] wCam 8 0 0
    { numRays := 0, depth := 0, paths1 := [], paths2 := [], inters1 := [],
      inters2 := [], image := [] }).2.1 (by decide)

theorem selFold_append (b : Hit × ℤ) (l1 l2 : List (Hit × ℤ)) :
    selFold b (l1 ++ l2) = selFold (selFold b l1) l2 :=
  List.foldl_append _ _ _ _

theorem siSelFold_append (p : ShadeableIntersection × Bool) (l1 l2 : List (Hit × ℤ)) :
    siSelFold p (l1 ++ l2) = siSelFold (siSelFold p l1) l2 :=
  List.foldl_append _ _ _ _

theorem selFold_t_le (l : List (Hit × ℤ)) : ∀ b : Hit × ℤ, (selFold b l).1.t ≤ b.1.t := by
  induction l with
  | nil => intro b; exact le_refl _
  | cons c l ih =>
    intro b
    rw [show selFold b (c :: l) = selFold (selStep b c) l from rfl]
    by_cases h : 0 < c.1.t ∧ c.1.t < b.1.t
    · have h1 := ih (selStep b c)
      have h2 : (selStep b c).1.t = c.1.t := by
        unfold selStep
        rw [if_pos h]
      rw [h2] at h1
      linarith [h.2]
    · have h2 : selStep b c = b := by
        unfold selStep
        rw [if_neg h]
      rw [h2]
      exact ih b

theorem selFold_keep (l : List (Hit × ℤ)) : ∀ b : Hit × ℤ,
    (∀ c ∈ l, ¬ (0 < c.1.t ∧ c.1.t < b.1.t)) → selFold b l = b := by
  induction l with
  | nil => intro b _; rfl
  | cons c l ih =>
    intro b h
    rw [show selFold b (c :: l) = selFold (selStep b c) l from rfl]
    have h2 : selStep b c = b := by
      unfold selStep
      rw [if_neg (h c (by simp))]
    rw [h2]
    exact ih b (fun d hd => h d (by simp [hd]))

theorem selFold_lt_iff (l : List (Hit × ℤ)) : ∀ b : Hit × ℤ,
    ((selFold b l).1.t < b.1.t ↔ ∃ c ∈ l, 0 < c.1.t ∧ c.1.t < b.1.t) := by
  induction l with
  | nil =>
    intro b
    simp [selFold]
  | cons c l ih =>
    intro b
    rw [show selFold b (c :: l) = selFold (selStep b c) l from rfl]
    by_cases h : 0 < c.1.t ∧ c.1.t < b.1.t
    · have h2 : selStep b c = c := by
        unfold selStep
        rw [if_pos h]
      rw [h2]
      constructor
      · intro _
        exact ⟨c, by simp, h⟩
      · intro _
        calc (selFold c l).1.t ≤ c.1.t := selFold_t_le l c
          _ < b.1.t := h.2
    · have h2 : selStep b c = b := by
        unfold selStep
        rw [if_neg h]
      rw [h2, ih b]
      constructor
      · rintro ⟨d, hd, hdd⟩
        exact ⟨d, by simp [hd], hdd⟩
      · rintro ⟨d, hd, hdd⟩
        rcases List.mem_cons.mp hd with h' | h'
        · exact absurd (h' ▸ hdd) h
        · exact ⟨d, h', hdd⟩

theorem selFold_reach (l : List (Hit × ℤ)) : ∀ (b m : Hit × ℤ), m ∈ l →
    0 < m.1.t → m.1.t < b.1.t →
    (∀ c ∈ l, 0 < c.1.t → c = m ∨ m.1.t < c.1.t) → selFold b l = m := by
  induction l with
  | nil =>
    intro b m hm
    simp at hm
  | cons c l ih =>
    intro b m hm hpos hlt huniq
    rw [show selFold b (c :: l) = selFold (selStep b c) l from rfl]
    by_cases h : 0 < c.1.t ∧ c.1.t < b.1.t
    · have h2 : selStep b c = c := by
        unfold selStep
        rw [if_pos h]
      rw [h2]
      rcases huniq c (by simp) h.1 with hc | hc
      · subst hc
        exact selFold_keep l c (by
          intro d hd hcon
          rcases huniq d (by simp [hd]) hcon.1 with h' | h'
          · rw [h'] at hcon
            exact absurd hcon.2 (lt_irrefl _)
          · exact absurd hcon.2 (not_lt.mpr (le_of_lt h')))
      · have hm' : m ∈ l := by
          rcases List.mem_cons.mp hm with h' | h'
          · rw [h'] at hc
            exact absurd hc (lt_irrefl _)
          · exact h'
        exact ih c m hm' hpos hc (fun d hd => huniq d (by simp [hd]))
    · have h2 : selStep b c = b := by
        unfold selStep
        rw [if_neg h]
      rw [h2]
      have hm' : m ∈ l := by
        rcases List.mem_cons.mp hm with h' | h'
        · exact absurd ⟨hpos, h' ▸ hlt⟩ (h' ▸ h)
        · exact h'
      exact ih b m hm' hpos hlt (fun d hd => huniq d (by simp [hd]))

theorem writeCand_candOfSI (si : ShadeableIntersection) :
    writeCand si (candOfSI si) = si := rfl

theorem candOfSI_writeCand (si : ShadeableIntersection) (c : Hit × ℤ) :
    candOfSI (writeCand si c) = c := rfl

theorem writeCand_writeCand (si : ShadeableIntersection) (c d : Hit × ℤ) :
    writeCand (writeCand si c) d = writeCand si d := rfl

theorem writeCand_t (si : ShadeableIntersection) (c : Hit × ℤ) :
    (writeCand si c).t = c.1.t := rfl

theorem siSelFold_eq (cl : List (Hit × ℤ)) :
    ∀ (si : ShadeableIntersection) (hb : Bool),
    siSelFold (si, hb) cl
      = (writeCand si (selFold (candOfSI si) cl),
         hb || decide ((selFold (candOfSI si) cl).1.t < si.t)) := by
  induction cl with
  | nil =>
    intro si hb
    rw [show siSelFold (si, hb) [] = (si, hb) from rfl]
    rw [show selFold (candOfSI si) [] = candOfSI si from rfl]
    rw [writeCand_candOfSI]
    have h : ¬ ((candOfSI si).1.t < si.t) := by
      rw [show (candOfSI si).1.t = si.t from rfl]
      exact lt_irrefl _
    simp [h]
  | cons c cl ih =>
    intro si hb
    rw [show siSelFold (si, hb) (c :: cl) = siSelFold (siSelStep (si, hb) c) cl from rfl]
    rw [show selFold (candOfSI si) (c :: cl) = selFold (selStep (candOfSI si) c) cl from rfl]
    unfold siSelStep
    dsimp only
    by_cases h : 0 < c.1.t ∧ c.1.t < si.t
    · rw [if_pos h]
      rw [ih (writeCand si c) true]
      rw [candOfSI_writeCand, writeCand_writeCand, writeCand_t]
      have hstep : selStep (candOfSI si) c = c := by
        unfold selStep
        rw [if_pos (show 0 < c.1.t ∧ c.1.t < (candOfSI si).1.t from h)]
      rw [hstep]
      have hlt : (selFold c cl).1.t < si.t := lt_of_le_of_lt (selFold_t_le cl c) h.2
      simp [hlt]
    · rw [if_neg h]
      rw [ih si hb]
      have hstep : selStep (candOfSI si) c = candOfSI si := by
        unfold selStep
        rw [if_neg (show ¬ (0 < c.1.t ∧ c.1.t < (candOfSI si).1.t) from h)]
      rw [hstep]

theorem leafFoldRange_eq_fold (E : Externals) (prims : List Primitive)
    (objects : List Object) (tris : List (ℕ × ℕ × ℕ)) (verts : List Vec3)
    (ray : Ray) (s e : ℕ) (inter : ShadeableIntersection) :
    leafFoldRange E prims objects tris verts ray s e inter
      = siSelFold (inter, false) (rangeCands E prims objects tris verts ray s e) := by
  unfold leafFoldRange rangeCands siSelFold
  rw [List.foldl_map]
  rfl

theorem procLeaf_eq (E : Externals) (prims : List Primitive)
    (objects : List Object) (tris : List (ℕ × ℕ × ℕ)) (verts : List Vec3)
    (ray : Ray) (p : ShadeableIntersection × Bool) (r : ℕ × ℕ) :
    procLeaf E prims objects tris verts ray p r
      = siSelFold p (rangeCands E prims objects tris verts ray r.1 r.2) := by
  obtain ⟨si, hb⟩ := p
  unfold procLeaf
  dsimp only
  rw [leafFoldRange_eq_fold]
  rw [siSelFold_eq, siSelFold_eq]
  simp

theorem procList_eq_fold (E : Externals) (prims : List Primitive)
    (objects : List Object) (tris : List (ℕ × ℕ × ℕ)) (verts : List Vec3)
    (ray : Ray) (L : List (ℕ × ℕ)) :
    ∀ p : ShadeableIntersection × Bool,
    procList E prims objects tris verts ray p L
      = siSelFold p (leafCands E prims objects tris verts ray L) := by
  induction L with
  | nil => intro p; rfl
  | cons r L ih =>
    intro p
    rw [show procList E prims objects tris verts ray p (r :: L)
        = procList E prims objects tris verts ray
            (procLeaf E prims objects tris verts ray p r) L from rfl]
    rw [ih, procLeaf_eq]
    rw [show leafCands E prims objects tris verts ray (r :: L)
        = rangeCands E prims objects tris verts ray r.1 r.2
          ++ leafCands E prims objects tris verts ray L from rfl]
    rw [siSelFold_append]

theorem Models_bounds {arr : List BVHGPUNode} {i : ℤ} {t : BTree}
    (h : Models arr i t) : 0 ≤ i ∧ i < (arr.length : ℤ) := by
  cases h with
  | leaf h0 h1 => exact ⟨h0, h1⟩
  | node h0 h1 => exact ⟨h0, h1⟩

theorem Models_box {arr : List BVHGPUNode} {i : ℤ} {t : BTree}
    (h : Models arr i t) : (getNode arr i).bbox = t.box := by
  cases h with
  | leaf _ _ h2 => exact h2
  | node _ _ h2 => exact h2

theorem sibling_of_left {arr : List BVHGPUNode} {i p : ℤ}
    (hp : (getNode arr i).parent = p) (hp0 : 0 ≤ p)
    (hl : (getNode arr p).left = i) :
    util_bvh_get_sibling arr i = (getNode arr p).right := by
  unfold util_bvh_get_sibling
  rw [hp, if_neg (by omega), if_pos hl]

theorem sibling_of_right {arr : List BVHGPUNode} {i p : ℤ}
    (hp : (getNode arr i).parent = p) (hp0 : 0 ≤ p)
    (hl : ¬ (getNode arr p).left = i) :
    util_bvh_get_sibling arr i = (getNode arr p).left := by
  unfold util_bvh_get_sibling
  rw [hp, if_neg (by omega), if_neg hl]

theorem traverseDone_false (len : ℕ) (c : TraverseCfg) (h1 : 0 ≤ c.curr)
    (h2 : c.curr < (len : ℤ)) (h3 : c.state = .fromChild → ¬ c.curr = 0) :
    traverseDone len c = false := by
  unfold traverseDone
  simp only [decide_eq_false_iff_not]
  push_neg
  exact ⟨⟨h1, h2⟩, h3⟩

theorem traverseRun_step (E : Externals) (arr : List BVHGPUNode)
    (prims : List Primitive) (objects : List Object)
    (tris : List (ℕ × ℕ × ℕ)) (verts : List Vec3) (ray : Ray) (f : ℕ)
    (c : TraverseCfg) (h : traverseDone arr.length c = false) :
    traverseRun E arr prims objects tris verts ray (f + 1) c
      = traverseRun E arr prims objects tris verts ray f
          (traverseStep E arr prims objects tris verts ray c) := by
  simp only [traverseRun, h, Bool.false_eq_true, if_false]

theorem traverseRun_done (E : Externals) (arr : List BVHGPUNode)
    (prims : List Primitive) (objects : List Object)
    (tris : List (ℕ × ℕ × ℕ)) (verts : List Vec3) (ray : Ray) (f : ℕ)
    (c : TraverseCfg) (h : traverseDone arr.length c = true) :
    traverseRun E arr prims objects tris verts ray f c = c := by
  cases f with
  | zero => rfl
  | succ f => simp only [traverseRun, h, if_true]

theorem RunsTo_step (E : Externals) (arr : List BVHGPUNode)
    (prims : List Primitive) (objects : List Object)
    (tris : List (ℕ × ℕ × ℕ)) (verts : List Vec3) (ray : Ray)
    (c : TraverseCfg) (h : traverseDone arr.length c = false) :
    RunsTo E arr prims objects tris verts ray 1 c
      (traverseStep E arr prims objects tris verts ray c) := by
  intro f
  rw [Nat.add_comm 1 f]
  exact traverseRun_step E arr prims objects tris verts ray f c h

theorem RunsTo_trans (E : Externals) (arr : List BVHGPUNode)
    (prims : List Primitive) (objects : List Object)
    (tris : List (ℕ × ℕ × ℕ)) (verts : List Vec3) (ray : Ray)
    {m n : ℕ} {c c' c'' : TraverseCfg}
    (h1 : RunsTo E arr prims objects tris verts ray m c c')
    (h2 : RunsTo E arr prims objects tris verts ray n c' c'') :
    RunsTo E arr prims objects tris verts ray (m + n) c c'' := by
  intro f
  rw [Nat.add_assoc]
  rw [h1 (n + f)]
  exact h2 f

theorem procList_append (E : Externals) (prims : List Primitive)
    (objects : List Object) (tris : List (ℕ × ℕ × ℕ)) (verts : List Vec3)
    (ray : Ray) (p : ShadeableIntersection × Bool) (L1 L2 : List (ℕ × ℕ)) :
    procList E prims objects tris verts ray p (L1 ++ L2)
      = procList E prims objects tris verts ray
          (procList E prims objects tris verts ray p L1) L2 :=
  List.foldl_append _ _ _ _

/-- The stackless three-state walk, against the tree a well-formed array
realizes: entering a subtree from its parent (at a near child) processes
exactly the pruned traversal of that subtree and exits to the sibling in
`fromSibling`; entering it as the far sibling processes the same and exits
to the parent in `fromChild`.  The step count is bounded by three times the
subtree size. -/
theorem traverseAB (E : Externals) (arr : List BVHGPUNode)
    (prims : List Primitive) (objects : List Object)
    (tris : List (ℕ × ℕ × ℕ)) (verts : List Vec3) (ray : Ray)
    (hroot : (getNode arr 0).parent = -1) :
    ∀ t : BTree, ∀ i : ℤ, Models arr i t →
    ∀ p : ℤ, (getNode arr i).parent = p → 0 ≤ p → p < (arr.length : ℤ) →
    (∀ (inter : ShadeableIntersection) (hb : Bool),
      util_bvh_get_near_child E arr p ray.origin = i →
      ∃ k, k ≤ 3 * t.size ∧
        RunsTo E arr prims objects tris verts ray k
          ⟨i, .fromParent, inter, hb⟩
          ⟨util_bvh_get_sibling arr i, .fromSibling,
            (procList E prims objects tris verts ray (inter, hb) (tvisit E ray t)).1,
            (procList E prims objects tris verts ray (inter, hb) (tvisit E ray t)).2⟩)
    ∧ (∀ (inter : ShadeableIntersection) (hb : Bool),
      ¬ util_bvh_get_near_child E arr p ray.origin = i →
      ∃ k, k ≤ 3 * t.size ∧
        RunsTo E arr prims objects tris verts ray k
          ⟨i, .fromSibling, inter, hb⟩
          ⟨p, .fromChild,
            (procList E prims objects tris verts ray (inter, hb) (tvisit E ray t)).1,
            (procList E prims objects tris verts ray (inter, hb) (tvisit E ray t)).2⟩) := by
  intro t
  induction t with
  | leaf b s e =>
    intro i hM p hp hp0 hplen
    cases hM with
    | leaf h0 h1 hbox hleft hright hstart hend hse =>
    constructor
    · intro inter hb _
      refine ⟨1, by simp [BTree.size], ?_⟩
      have hnd : traverseDone arr.length ⟨i, .fromParent, inter, hb⟩ = false :=
        traverseDone_false _ _ h0 h1 (fun h => nomatch h)
      have hR := RunsTo_step E arr prims objects tris verts ray _ hnd
      by_cases hbb : E.boundingBoxIntersectionTest b ray = true
      · have hvisit : tvisit E ray (BTree.leaf b s e) = [(s, e)] := by
          simp only [tvisit]
          rw [if_pos hbb]
        rw [hvisit]
        have hstep : traverseStep E arr prims objects tris verts ray
            ⟨i, .fromParent, inter, hb⟩
            = ⟨util_bvh_get_sibling arr i, .fromSibling,
               (procList E prims objects tris verts ray (inter, hb) [(s, e)]).1,
               (procList E prims objects tris verts ray (inter, hb) [(s, e)]).2⟩ := by
          unfold traverseStep
          dsimp only
          rw [hbox, if_neg (not_not_intro hbb)]
          have hlf : util_bvh_is_leaf arr i = true := by
            unfold util_bvh_is_leaf
            rw [hleft, hright]
            rfl
          rw [if_pos hlf]
          unfold util_bvh_leaf_intersect
          rw [hstart, hend]
          rfl
        rw [hstep] at hR
        exact hR
      · have hvisit : tvisit E ray (BTree.leaf b s e) = [] := by
          simp only [tvisit]
          rw [if_neg hbb]
        rw [hvisit]
        have hstep : traverseStep E arr prims objects tris verts ray
            ⟨i, .fromParent, inter, hb⟩
            = ⟨util_bvh_get_sibling arr i, .fromSibling,
               (procList E prims objects tris verts ray (inter, hb) []).1,
               (procList E prims objects tris verts ray (inter, hb) []).2⟩ := by
          unfold traverseStep
          dsimp only
          rw [hbox, if_pos hbb]
          rfl
        rw [hstep] at hR
        exact hR
    · intro inter hb _
      refine ⟨1, by simp [BTree.size], ?_⟩
      have hnd : traverseDone arr.length ⟨i, .fromSibling, inter, hb⟩ = false :=
        traverseDone_false _ _ h0 h1 (fun h => nomatch h)
      have hR := RunsTo_step E arr prims objects tris verts ray _ hnd
      by_cases hbb : E.boundingBoxIntersectionTest b ray = true
      · have hvisit : tvisit E ray (BTree.leaf b s e) = [(s, e)] := by
          simp only [tvisit]
          rw [if_pos hbb]
        rw [hvisit]
        have hstep : traverseStep E arr prims objects tris verts ray
            ⟨i, .fromSibling, inter, hb⟩
            = ⟨p, .fromChild,
               (procList E prims objects tris verts ray (inter, hb) [(s, e)]).1,
               (procList E prims objects tris verts ray (inter, hb) [(s, e)]).2⟩ := by
          unfold traverseStep
          dsimp only
          rw [hbox, if_neg (not_not_intro hbb)]
          have hlf : util_bvh_is_leaf arr i = true := by
            unfold util_bvh_is_leaf
            rw [hleft, hright]
            rfl
          rw [if_pos hlf]
          unfold util_bvh_leaf_intersect
          rw [hstart, hend, hp]
          rfl
        rw [hstep] at hR
        exact hR
      · have hvisit : tvisit E ray (BTree.leaf b s e) = [] := by
          simp only [tvisit]
          rw [if_neg hbb]
        rw [hvisit]
        have hstep : traverseStep E arr prims objects tris verts ray
            ⟨i, .fromSibling, inter, hb⟩
            = ⟨p, .fromChild,
               (procList E prims objects tris verts ray (inter, hb) []).1,
               (procList E prims objects tris verts ray (inter, hb) []).2⟩ := by
          unfold traverseStep
          dsimp only
          rw [hbox, if_pos hbb, hp]
          rfl
        rw [hstep] at hR
        exact hR
  | node b tl tr ihl ihr =>
    intro i hM p hp hp0 hplen
    cases hM with
    | node h0 h1 hbox hl0 hllen hr0 hrlen hlr hpl hpr hMl hMr =>
    have hi0 : ¬ i = 0 := by
      intro h
      rw [h, hroot] at hp
      omega
    have hleaf : ¬ util_bvh_is_leaf arr i = true := by
      unfold util_bvh_is_leaf
      simp only [Bool.and_eq_true, decide_eq_true_eq]
      intro h
      omega
    have hmid : E.boundingBoxIntersectionTest b ray = true →
        ∀ (inter : ShadeableIntersection) (hb : Bool), ∃ k,
          k ≤ 3 * tl.size + 3 * tr.size ∧
          RunsTo E arr prims objects tris verts ray k
            ⟨util_bvh_get_near_child E arr i ray.origin, .fromParent, inter, hb⟩
            ⟨i, .fromChild,
              (procList E prims objects tris verts ray (inter, hb)
                (tvisit E ray (BTree.node b tl tr))).1,
              (procList E prims objects tris verts ray (inter, hb)
                (tvisit E ray (BTree.node b tl tr))).2⟩ := by
      intro hbb inter hb
      by_cases hcmp : E.glm_distance (boxCenter tl.box) ray.origin
          < E.glm_distance (boxCenter tr.box) ray.origin
      · have hnear_i : util_bvh_get_near_child E arr i ray.origin = (getNode arr i).left := by
          unfold util_bvh_get_near_child
          rw [Models_box hMl, Models_box hMr, if_pos hcmp]
        have hvisit : tvisit E ray (BTree.node b tl tr)
            = tvisit E ray tl ++ tvisit E ray tr := by
          simp only [tvisit]
          rw [if_pos hbb, if_pos hcmp]
        obtain ⟨k1, hk1, hR1⟩ := (ihl (getNode arr i).left hMl i hpl h0 h1).1
          inter hb hnear_i
        rw [sibling_of_left hpl h0 rfl] at hR1
        obtain ⟨k2, hk2, hR2⟩ := (ihr (getNode arr i).right hMr i hpr h0 h1).2
          (procList E prims objects tris verts ray (inter, hb) (tvisit E ray tl)).1
          (procList E prims objects tris verts ray (inter, hb) (tvisit E ray tl)).2
          (by rw [hnear_i]; exact hlr)
        rw [Prod.mk.eta] at hR2
        rw [← procList_append] at hR2
        have hcomb := RunsTo_trans E arr prims objects tris verts ray hR1 hR2
        rw [hnear_i, hvisit]
        exact ⟨k1 + k2, by omega, hcomb⟩
      · have hnear_i : util_bvh_get_near_child E arr i ray.origin = (getNode arr i).right := by
          unfold util_bvh_get_near_child
          rw [Models_box hMl, Models_box hMr, if_neg hcmp]
        have hvisit : tvisit E ray (BTree.node b tl tr)
            = tvisit E ray tr ++ tvisit E ray tl := by
          simp only [tvisit]
          rw [if_pos hbb, if_neg hcmp]
        obtain ⟨k1, hk1, hR1⟩ := (ihr (getNode arr i).right hMr i hpr h0 h1).1
          inter hb hnear_i
        rw [sibling_of_right hpr h0 (fun hh => hlr hh) ] at hR1
        obtain ⟨k2, hk2, hR2⟩ := (ihl (getNode arr i).left hMl i hpl h0 h1).2
          (procList E prims objects tris verts ray (inter, hb) (tvisit E ray tr)).1
          (procList E prims objects tris verts ray (inter, hb) (tvisit E ray tr)).2
          (by rw [hnear_i]; intro hh; exact hlr hh.symm)
        rw [Prod.mk.eta] at hR2
        rw [← procList_append] at hR2
        have hcomb := RunsTo_trans E arr prims objects tris verts ray hR1 hR2
        rw [hnear_i, hvisit]
        exact ⟨k1 + k2, by omega, hcomb⟩
    constructor
    · intro inter hb hnear
      have hnd : traverseDone arr.length ⟨i, .fromParent, inter, hb⟩ = false :=
        traverseDone_false _ _ h0 h1 (fun h => nomatch h)
      have hR0 := RunsTo_step E arr prims objects tris verts ray _ hnd
      by_cases hbb : E.boundingBoxIntersectionTest b ray = true
      · have hstep : traverseStep E arr prims objects tris verts ray
            ⟨i, .fromParent, inter, hb⟩
            = ⟨util_bvh_get_near_child E arr i ray.origin, .fromParent, inter, hb⟩ := by
          unfold traverseStep
          dsimp only
          rw [hbox, if_neg (not_not_intro hbb), if_neg hleaf]
        rw [hstep] at hR0
        obtain ⟨kmid, hkmid, hRmid⟩ := hmid hbb inter hb
        have hndc : traverseDone arr.length ⟨i, .fromChild,
            (procList E prims objects tris verts ray (inter, hb)
              (tvisit E ray (BTree.node b tl tr))).1,
            (procList E prims objects tris verts ray (inter, hb)
              (tvisit E ray (BTree.node b tl tr))).2⟩ = false :=
          traverseDone_false _ _ h0 h1 (fun _ => hi0)
        have hRc := RunsTo_step E arr prims objects tris verts ray _ hndc
        have hstepc : traverseStep E arr prims objects tris verts ray
            ⟨i, .fromChild,
              (procList E prims objects tris verts ray (inter, hb)
                (tvisit E ray (BTree.node b tl tr))).1,
              (procList E prims objects tris verts ray (inter, hb)
                (tvisit E ray (BTree.node b tl tr))).2⟩
            = ⟨util_bvh_get_sibling arr i, .fromSibling,
               (procList E prims objects tris verts ray (inter, hb)
                 (tvisit E ray (BTree.node b tl tr))).1,
               (procList E prims objects tris verts ray (inter, hb)
                 (tvisit E ray (BTree.node b tl tr))).2⟩ := by
          unfold traverseStep
          dsimp only
          rw [hp, if_pos hnear.symm]
        rw [hstepc] at hRc
        refine ⟨1 + (kmid + 1), by simp only [BTree.size]; omega, ?_⟩
        exact RunsTo_trans E arr prims objects tris verts ray hR0
          (RunsTo_trans E arr prims objects tris verts ray hRmid hRc)
      · have hvisit : tvisit E ray (BTree.node b tl tr) = [] := by
          simp only [tvisit]
          rw [if_neg hbb]
        rw [hvisit]
        have hstep : traverseStep E arr prims objects tris verts ray
            ⟨i, .fromParent, inter, hb⟩
            = ⟨util_bvh_get_sibling arr i, .fromSibling,
               (procList E prims objects tris verts ray (inter, hb) []).1,
               (procList E prims objects tris verts ray (inter, hb) []).2⟩ := by
          unfold traverseStep
          dsimp only
          rw [hbox, if_pos hbb]
          rfl
        rw [hstep] at hR0
        exact ⟨1, by simp only [BTree.size]; omega, hR0⟩
    · intro inter hb hnear
      have hnd : traverseDone arr.length ⟨i, .fromSibling, inter, hb⟩ = false :=
        traverseDone_false _ _ h0 h1 (fun h => nomatch h)
      have hR0 := RunsTo_step E arr prims objects tris verts ray _ hnd
      by_cases hbb : E.boundingBoxIntersectionTest b ray = true
      · have hstep : traverseStep E arr prims objects tris verts ray
            ⟨i, .fromSibling, inter, hb⟩
            = ⟨util_bvh_get_near_child E arr i ray.origin, .fromParent, inter, hb⟩ := by
          unfold traverseStep
          dsimp only
          rw [hbox, if_neg (not_not_intro hbb), if_neg hleaf]
        rw [hstep] at hR0
        obtain ⟨kmid, hkmid, hRmid⟩ := hmid hbb inter hb
        have hndc : traverseDone arr.length ⟨i, .fromChild,
            (procList E prims objects tris verts ray (inter, hb)
              (tvisit E ray (BTree.node b tl tr))).1,
            (procList E prims objects tris verts ray (inter, hb)
              (tvisit E ray (BTree.node b tl tr))).2⟩ = false :=
          traverseDone_false _ _ h0 h1 (fun _ => hi0)
        have hRc := RunsTo_step E arr prims objects tris verts ray _ hndc
        have hstepc : traverseStep E arr prims objects tris verts ray
            ⟨i, .fromChild,
              (procList E prims objects tris verts ray (inter, hb)
                (tvisit E ray (BTree.node b tl tr))).1,
              (procList E prims objects tris verts ray (inter, hb)
                (tvisit E ray (BTree.node b tl tr))).2⟩
            = ⟨p, .fromChild,
               (procList E prims objects tris verts ray (inter, hb)
                 (tvisit E ray (BTree.node b tl tr))).1,
               (procList E prims objects tris verts ray (inter, hb)
                 (tvisit E ray (BTree.node b tl tr))).2⟩ := by
          unfold traverseStep
          dsimp only
          rw [hp, if_neg (fun hh => hnear hh.symm)]
        rw [hstepc] at hRc
        refine ⟨1 + (kmid + 1), by simp only [BTree.size]; omega, ?_⟩
        exact RunsTo_trans E arr prims objects tris verts ray hR0
          (RunsTo_trans E arr prims objects tris verts ray hRmid hRc)
      · have hvisit : tvisit E ray (BTree.node b tl tr) = [] := by
          simp only [tvisit]
          rw [if_neg hbb]
        rw [hvisit]
        have hstep : traverseStep E arr prims objects tris verts ray
            ⟨i, .fromSibling, inter, hb⟩
            = ⟨p, .fromChild,
               (procList E prims objects tris verts ray (inter, hb) []).1,
               (procList E prims objects tris verts ray (inter, hb) []).2⟩ := by
          unfold traverseStep
          dsimp only
          rw [hbox, if_pos hbb, hp]
          rfl
        rw [hstep] at hR0
        exact ⟨1, by simp only [BTree.size]; omega, hR0⟩

/-- Witness for C2 on the concrete 3-node scene: from the far leaf in state
`fromSibling` (box passes, leaf), one step moves to the parent in
`fromChild`. -/
theorem selFold_cons (b c : Hit × ℤ) (l : List (Hit × ℤ)) :
    selFold b (c :: l) = selFold (selStep b c) l := rfl

theorem bfInv_init : bfInv bfInit := Or.inl (by norm_num [bfInit, bfInv])

theorem bfUpdate_inv (m : ℤ) (a : BFAcc) : bfInv (bfUpdate m a) := by
  unfold bfUpdate bfInv
  by_cases h : 0 < a.t ∧ a.t < a.t_min
  · rw [if_pos h]
    exact Or.inr (le_refl _)
  · rw [if_neg h]
    push_neg at h
    rcases lt_or_le 0 a.t with h0 | h0
    · exact Or.inr (h h0)
    · exact Or.inl h0

theorem bfUpdate_noop (m : ℤ) (a : BFAcc) (h : bfInv a) : bfUpdate m a = a := by
  unfold bfUpdate
  rw [if_neg]
  intro hc
  unfold bfInv at h
  rcases h with h | h
  · exact absurd hc.1 (not_lt.mpr h)
  · exact absurd hc.2 (not_lt.mpr h)

theorem candOfBF_testUpd (h : Hit) (m : ℤ) (a : BFAcc) :
    candOfBF (bfUpdate m (bfTest h a)) = selStep (candOfBF a) (h, m) := by
  unfold bfUpdate bfTest selStep candOfBF
  dsimp only
  split <;> rfl

theorem bfTri_cand (E : Externals) (tris : List (ℕ × ℕ × ℕ)) (verts : List Vec3)
    (g : Object) (ray : Ray) (idxs : List ℕ) : ∀ a : BFAcc,
    candOfBF (idxs.foldl (bfTri E tris verts g ray) a)
      = selFold (candOfBF a) (idxs.map (triCand E tris verts g ray)) := by
  induction idxs with
  | nil => intro a; rfl
  | cons i idxs ih =>
    intro a
    rw [List.foldl_cons, List.map_cons, selFold_cons]
    rw [ih (bfTri E tris verts g ray a i)]
    have hc : candOfBF (bfUpdate g.materialid
        (bfTest (E.triangleIntersectionTest g.Transform
          (verts.getD (tris.getD i (0, 0, 0)).1 vzero)
          (verts.getD (tris.getD i (0, 0, 0)).2.1 vzero)
          (verts.getD (tris.getD i (0, 0, 0)).2.2 vzero) ray) a))
        = selStep (candOfBF a)
          (E.triangleIntersectionTest g.Transform
            (verts.getD (tris.getD i (0, 0, 0)).1 vzero)
            (verts.getD (tris.getD i (0, 0, 0)).2.1 vzero)
            (verts.getD (tris.getD i (0, 0, 0)).2.2 vzero) ray,
           g.materialid) := candOfBF_testUpd _ _ _
    exact congrArg (fun c => selFold c (idxs.map (triCand E tris verts g ray))) hc

theorem bfTri_inv (E : Externals) (tris : List (ℕ × ℕ × ℕ)) (verts : List Vec3)
    (g : Object) (ray : Ray) (idxs : List ℕ) : ∀ a : BFAcc, bfInv a →
    bfInv (idxs.foldl (bfTri E tris verts g ray) a) := by
  induction idxs with
  | nil => intro a h; exact h
  | cons i idxs ih =>
    intro a _
    rw [List.foldl_cons]
    exact ih _ (bfUpdate_inv _ _)

theorem bfObject_inv (E : Externals) (tris : List (ℕ × ℕ × ℕ))
    (verts : List Vec3) (ray : Ray) (a : BFAcc) (g : Object) :
    bfInv (bfObject E tris verts ray a g) := by
  unfold bfObject
  cases g.type <;> dsimp only <;> exact bfUpdate_inv _ _

theorem bfObject_cand (E : Externals) (tris : List (ℕ × ℕ × ℕ))
    (verts : List Vec3) (ray : Ray) (g : Object) (a : BFAcc) (hinv : bfInv a) :
    candOfBF (bfObject E tris verts ray a g)
      = selFold (candOfBF a) (objCands E tris verts ray g) := by
  unfold bfObject objCands
  cases g.type <;> dsimp only
  case CUBE => exact candOfBF_testUpd _ _ _
  case SPHERE => exact candOfBF_testUpd _ _ _
  case MODEL =>
    rw [bfUpdate_noop _ _ (bfTri_inv E tris verts g ray _ a hinv)]
    exact bfTri_cand E tris verts g ray _ a

theorem bfFold_cand (E : Externals) (geoms : List Object)
    (tris : List (ℕ × ℕ × ℕ)) (verts : List Vec3) (ray : Ray) :
    ∀ a : BFAcc, bfInv a →
    candOfBF (geoms.foldl (bfObject E tris verts ray) a)
      = selFold (candOfBF a) (bruteCands E geoms tris verts ray) := by
  induction geoms with
  | nil => intro a _; rfl
  | cons g geoms ih =>
    intro a h
    rw [List.foldl_cons]
    rw [ih (bfObject E tris verts ray a g) (bfObject_inv E tris verts ray a g)]
    rw [bfObject_cand E tris verts ray g a h]
    rw [show bruteCands E (g :: geoms) tris verts ray
        = objCands E tris verts ray g ++ bruteCands E geoms tris verts ray
      from List.flatMap_cons ..]
    rw [selFold_append]

theorem leafCands_append (E : Externals) (prims : List Primitive)
    (objects : List Object) (tris : List (ℕ × ℕ × ℕ)) (verts : List Vec3)
    (ray : Ray) (L1 L2 : List (ℕ × ℕ)) :
    leafCands E prims objects tris verts ray (L1 ++ L2)
      = leafCands E prims objects tris verts ray L1
        ++ leafCands E prims objects tris verts ray L2 :=
  List.flatMap_append ..

theorem leafCands_mono (E : Externals) (prims : List Primitive)
    (objects : List Object) (tris : List (ℕ × ℕ × ℕ)) (verts : List Vec3)
    (ray : Ray) {L1 L2 : List (ℕ × ℕ)} (hsub : ∀ r ∈ L1, r ∈ L2) :
    ∀ c ∈ leafCands E prims objects tris verts ray L1,
      c ∈ leafCands E prims objects tris verts ray L2 := by
  intro c hc
  unfold leafCands at hc ⊢
  rw [List.mem_flatMap] at hc ⊢
  obtain ⟨r, hr, hcr⟩ := hc
  exact ⟨r, hsub r hr, hcr⟩

theorem tvisit_sub (E : Externals) (ray : Ray) :
    ∀ t : BTree, ∀ r ∈ tvisit E ray t, r ∈ BTree.leaves t := by
  intro t
  induction t with
  | leaf b s e =>
    intro r hr
    simp only [tvisit] at hr
    simp only [BTree.leaves]
    by_cases hbb : E.boundingBoxIntersectionTest b ray = true
    · rw [if_pos hbb] at hr
      exact hr
    · rw [if_neg hbb] at hr
      simp at hr
  | node b tl tr ihl ihr =>
    intro r hr
    simp only [tvisit] at hr
    simp only [BTree.leaves]
    by_cases hbb : E.boundingBoxIntersectionTest b ray = true
    · rw [if_pos hbb] at hr
      by_cases hcmp : E.glm_distance (boxCenter tl.box) ray.origin
          < E.glm_distance (boxCenter tr.box) ray.origin
      · rw [if_pos hcmp] at hr
        rcases List.mem_append.mp hr with h | h
        · exact List.mem_append_left _ (ihl r h)
        · exact List.mem_append_right _ (ihr r h)
      · rw [if_neg hcmp] at hr
        rcases List.mem_append.mp hr with h | h
        · exact List.mem_append_right _ (ihr r h)
        · exact List.mem_append_left _ (ihl r h)
    · rw [if_neg hbb] at hr
      simp at hr

theorem mem_tvisit_cands (E : Externals) (prims : List Primitive)
    (objects : List Object) (tris : List (ℕ × ℕ × ℕ)) (verts : List Vec3)
    (ray : Ray) :
    ∀ t : BTree, Conserv E prims objects tris verts ray t →
    ∀ c ∈ leafCands E prims objects tris verts ray (BTree.leaves t),
    0 < c.1.t →
    c ∈ leafCands E prims objects tris verts ray (tvisit E ray t) := by
  intro t
  induction t with
  | leaf b s e =>
    intro hC c hc hpos
    simp only [BTree.leaves] at hc
    by_cases hbb : E.boundingBoxIntersectionTest b ray = true
    · simp only [tvisit]
      rw [if_pos hbb]
      exact hc
    · have h2 : ¬ E.boundingBoxIntersectionTest b ray = true →
          ∀ d ∈ rangeCands E prims objects tris verts ray s e, d.1.t ≤ 0 := hC
      obtain ⟨r, hr, hcr⟩ := List.mem_flatMap.mp hc
      have hrse : r = (s, e) := by simpa using hr
      rw [hrse] at hcr
      exact absurd hpos (not_lt.mpr (h2 hbb c hcr))
  | node b tl tr ihl ihr =>
    intro hC c hc hpos
    obtain ⟨hCb, hCl, hCr⟩ := hC
    simp only [BTree.leaves] at hc
    by_cases hbb : E.boundingBoxIntersectionTest b ray = true
    · rw [leafCands_append] at hc
      simp only [tvisit]
      rw [if_pos hbb]
      rcases List.mem_append.mp hc with h | h
      · have hin := ihl hCl c h hpos
        by_cases hcmp : E.glm_distance (boxCenter tl.box) ray.origin
            < E.glm_distance (boxCenter tr.box) ray.origin
        · rw [if_pos hcmp, leafCands_append]
          exact List.mem_append_left _ hin
        · rw [if_neg hcmp, leafCands_append]
          exact List.mem_append_right _ hin
      · have hin := ihr hCr c h hpos
        by_cases hcmp : E.glm_distance (boxCenter tl.box) ray.origin
            < E.glm_distance (boxCenter tr.box) ray.origin
        · rw [if_pos hcmp, leafCands_append]
          exact List.mem_append_right _ hin
        · rw [if_neg hcmp, leafCands_append]
          exact List.mem_append_left _ hin
    · exact absurd hpos (not_lt.mpr (hCb hbb c hc))

/-- The full stackless run on a well-formed two-child root: with enough
fuel the walk halts at the root in state `fromChild`, having processed a
list of leaf ranges that contains the pruned traversals of both subtrees
and nothing else. -/
theorem bvh_run_total (E : Externals) (arr : List BVHGPUNode)
    (prims : List Primitive) (objects : List Object)
    (tris : List (ℕ × ℕ × ℕ)) (verts : List Vec3) (ray : Ray)
    {b : BBox} {tl tr : BTree}
    (hM : Models arr 0 (.node b tl tr))
    (hroot : (getNode arr 0).parent = -1)
    (fuel : ℕ) (hfuel : 3 * (1 + tl.size + tr.size) ≤ fuel) :
    ∃ V : List (ℕ × ℕ),
      traverseRun E arr prims objects tris verts ray fuel (bvhInitCfg E arr ray)
        = ⟨0, .fromChild,
            (procList E prims objects tris verts ray (bvhTmpInit, false) V).1,
            (procList E prims objects tris verts ray (bvhTmpInit, false) V).2⟩
      ∧ (∀ r ∈ V, r ∈ tvisit E ray tl ++ tvisit E ray tr)
      ∧ (∀ r ∈ tvisit E ray tl, r ∈ V)
      ∧ (∀ r ∈ tvisit E ray tr, r ∈ V) := by
  cases hM with
  | node h0 h1 hbox hl0 hllen hr0 hrlen hlr hpl hpr hMl hMr =>
  have hdone : ∀ X Y, traverseDone arr.length
      (⟨0, .fromChild, X, Y⟩ : TraverseCfg) = true := by
    intro X Y
    unfold traverseDone
    simp
  by_cases hcmp : E.glm_distance (boxCenter tl.box) ray.origin
      < E.glm_distance (boxCenter tr.box) ray.origin
  · have hnear0 : util_bvh_get_near_child E arr 0 ray.origin
        = (getNode arr 0).left := by
      unfold util_bvh_get_near_child
      rw [Models_box hMl, Models_box hMr, if_pos hcmp]
    obtain ⟨k1, hk1, hR1⟩ := (traverseAB E arr prims objects tris verts ray hroot
      tl (getNode arr 0).left hMl 0 hpl (by omega) h1).1 bvhTmpInit false hnear0
    rw [sibling_of_left hpl (by omega) rfl] at hR1
    obtain ⟨k2, hk2, hR2⟩ := (traverseAB E arr prims objects tris verts ray hroot
      tr (getNode arr 0).right hMr 0 hpr (by omega) h1).2
      (procList E prims objects tris verts ray (bvhTmpInit, false) (tvisit E ray tl)).1
      (procList E prims objects tris verts ray (bvhTmpInit, false) (tvisit E ray tl)).2
      (by rw [hnear0]; exact hlr)
    rw [Prod.mk.eta, ← procList_append] at hR2
    have hcomb := RunsTo_trans E arr prims objects tris verts ray hR1 hR2
    refine ⟨tvisit E ray tl ++ tvisit E ray tr, ?_, fun r hr => hr,
      fun r hr => List.mem_append_left _ hr, fun r hr => List.mem_append_right _ hr⟩
    have hinit : bvhInitCfg E arr ray
        = ⟨(getNode arr 0).left, .fromParent, bvhTmpInit, false⟩ := by
      unfold bvhInitCfg
      rw [hnear0]
    rw [hinit]
    have hsplit : fuel = (k1 + k2) + (fuel - (k1 + k2)) := by
      omega
    rw [hsplit, hcomb (fuel - (k1 + k2))]
    exact traverseRun_done E arr prims objects tris verts ray _ _ (hdone _ _)
  · have hnear0 : util_bvh_get_near_child E arr 0 ray.origin
        = (getNode arr 0).right := by
      unfold util_bvh_get_near_child
      rw [Models_box hMl, Models_box hMr, if_neg hcmp]
    obtain ⟨k1, hk1, hR1⟩ := (traverseAB E arr prims objects tris verts ray hroot
      tr (getNode arr 0).right hMr 0 hpr (by omega) h1).1 bvhTmpInit false hnear0
    rw [sibling_of_right hpr (by omega) (fun hh => hlr hh)] at hR1
    obtain ⟨k2, hk2, hR2⟩ := (traverseAB E arr prims objects tris verts ray hroot
      tl (getNode arr 0).left hMl 0 hpl (by omega) h1).2
      (procList E prims objects tris verts ray (bvhTmpInit, false) (tvisit E ray tr)).1
      (procList E prims objects tris verts ray (bvhTmpInit, false) (tvisit E ray tr)).2
      (by rw [hnear0]; intro hh; exact hlr hh.symm)
    rw [Prod.mk.eta, ← procList_append] at hR2
    have hcomb := RunsTo_trans E arr prims objects tris verts ray hR1 hR2
    refine ⟨tvisit E ray tr ++ tvisit E ray tl,
      ?_, fun r hr => List.mem_append.mpr ((List.mem_append.mp hr).elim .inr .inl),
      fun r hr => List.mem_append_right _ hr, fun r hr => List.mem_append_left _ hr⟩
    have hinit : bvhInitCfg E arr ray
        = ⟨(getNode arr 0).right, .fromParent, bvhTmpInit, false⟩ := by
      unfold bvhInitCfg
      rw [hnear0]
    rw [hinit]
    have hsplit : fuel = (k1 + k2) + (fuel - (k1 + k2)) := by
      omega
    rw [hsplit, hcomb (fuel - (k1 + k2))]
    exact traverseRun_done E arr prims objects tris verts ray _ _ (hdone _ _)

theorem cex_models : Models cexArr 0
    (.node (wBox 0 8) (.leaf (wBox 0 2) 0 1) (.leaf (wBox 0 4) 1 2)) := by
  apply Models.node (by decide) (by decide) rfl (by decide) (by decide)
    (by decide) (by decide) (by decide) (by decide) (by decide)
  · exact Models.leaf (by decide) (by decide) rfl (by decide) (by decide)
      (by decide) (by decide) (by decide)
  · exact Models.leaf (by decide) (by decide) rfl (by decide) (by decide)
      (by decide) (by decide) (by decide)

/-- C1 counterexample: a scene meeting every structural data-model
invariant the spec's §3 states for the flat BVH array (a well-formed
binary-tree realization whose root has parent `-1`) on which the two
kernels disagree, because the stored boxes are not conservative: every box
test misses while the sphere primitive hits, so the brute-force kernel
reports a hit (flag 1) and the BVH kernel prunes everything and reports a
miss (flag 0).  The spec's §3 invariants alone therefore do not imply the
claimed equivalence. -/
theorem claim_C1_counterexample :
    Models cexArr 0 cexTree
    ∧ (getNode cexArr 0).parent = -1
    ∧ (compute_intersection_one Ecex cexObjects [] [] cexRay
        clearedIntersection).2 = 1
    ∧ (compute_intersection_bvh_stackless_one Ecex 10 wMaterials cexArr
        cexPrims cexObjects [] [] cexRay clearedIntersection).2 = 0 :=
  ⟨cex_models, by decide, by decide, by decide⟩

/-- Claim C1 (amended): for a scene whose flat BVH array realizes a binary
tree with a two-child root (parent `-1`), whose bounding boxes are
conservative for the ray (a missed box prunes only missing primitives),
whose leaf primitive candidates all appear among the brute-force
candidates, and on which the ray has either no positive-`t` candidate at
all or a unique nearest positive hit below the BVH kernel's `1e20`
initial distance, the brute-force kernel and the stackless BVH kernel
(given fuel at least three times the tree size) return the same validity
flag and the same `t`, material id, hit point and surface normal. -/
theorem claim_C1_amended (E : Externals) (materials : List Material)
    (arr : List BVHGPUNode) (prims : List Primitive) (geoms : List Object)
    (tris : List (ℕ × ℕ × ℕ)) (verts : List Vec3) (ray : Ray)
    (rec : ShadeableIntersection) (fuel : ℕ)
    {b : BBox} {tl tr : BTree}
    (hM : Models arr 0 (.node b tl tr))
    (hroot : (getNode arr 0).parent = -1)
    (hfuel : 3 * (1 + tl.size + tr.size) ≤ fuel)
    (hCl : Conserv E prims geoms tris verts ray tl)
    (hCr : Conserv E prims geoms tris verts ray tr)
    (hSub : ∀ c ∈ leafCands E prims geoms tris verts ray
        (BTree.leaves tl ++ BTree.leaves tr),
      c ∈ bruteCands E geoms tris verts ray)
    (hHit : (∀ c ∈ bruteCands E geoms tris verts ray, c.1.t ≤ 0)
      ∨ (∃ m, m ∈ leafCands E prims geoms tris verts ray
            (BTree.leaves tl ++ BTree.leaves tr)
          ∧ 0 < m.1.t ∧ m.1.t < BVH_TMAX
          ∧ ∀ c ∈ bruteCands E geoms tris verts ray,
              0 < c.1.t → c = m ∨ m.1.t < c.1.t)) :
    (compute_intersection_one E geoms tris verts ray rec).2
      = (compute_intersection_bvh_stackless_one E fuel materials arr prims
          geoms tris verts ray rec).2
    ∧ (compute_intersection_one E geoms tris verts ray rec).1.t
      = (compute_intersection_bvh_stackless_one E fuel materials arr prims
          geoms tris verts ray rec).1.t
    ∧ (compute_intersection_one E geoms tris verts ray rec).1.materialId
      = (compute_intersection_bvh_stackless_one E fuel materials arr prims
          geoms tris verts ray rec).1.materialId
    ∧ (compute_intersection_one E geoms tris verts ray rec).1.worldPos
      = (compute_intersection_bvh_stackless_one E fuel materials arr prims
          geoms tris verts ray rec).1.worldPos
    ∧ (compute_intersection_one E geoms tris verts ray rec).1.surfaceNormal
      = (compute_intersection_bvh_stackless_one E fuel materials arr prims
          geoms tris verts ray rec).1.surfaceNormal := by
  obtain ⟨V, hrun, hVsub, hVl, hVr⟩ := bvh_run_total E arr prims geoms tris verts
    ray hM hroot fuel hfuel
  have hVleaves : ∀ r ∈ V, r ∈ BTree.leaves tl ++ BTree.leaves tr := by
    intro r hr
    rcases List.mem_append.mp (hVsub r hr) with h | h
    · exact List.mem_append_left _ (tvisit_sub E ray tl r h)
    · exact List.mem_append_right _ (tvisit_sub E ray tr r h)
  have hVbrute : ∀ c ∈ leafCands E prims geoms tris verts ray V,
      c ∈ bruteCands E geoms tris verts ray := by
    intro c hc
    exact hSub c (leafCands_mono E prims geoms tris verts ray hVleaves c hc)
  have hbf := bfFold_cand E geoms tris verts ray bfInit bfInv_init
  rcases hHit with hno | ⟨m, hmL, hmpos, hmlt, huniq⟩
  · have hbfkeep : selFold (candOfBF bfInit) (bruteCands E geoms tris verts ray)
        = candOfBF bfInit := by
      apply selFold_keep
      intro c hc hcond
      exact absurd hcond.1 (not_lt.mpr (hno c hc))
    have ht : (geoms.foldl (bfObject E tris verts ray) bfInit).t_min = FLT_MAX :=
      congrArg (fun c => c.1.t) (hbf.trans hbfkeep)
    have h1 : compute_intersection_one E geoms tris verts ray rec = (rec, 0) := by
      simp only [compute_intersection_one]
      rw [if_pos ht]
    have hbvkeep : selFold (candOfSI bvhTmpInit)
        (leafCands E prims geoms tris verts ray V) = candOfSI bvhTmpInit := by
      apply selFold_keep
      intro c hc hcond
      exact absurd hcond.1 (not_lt.mpr (hno c (hVbrute c hc)))
    have hP : procList E prims geoms tris verts ray (bvhTmpInit, false) V
        = (bvhTmpInit, false) := by
      rw [procList_eq_fold, siSelFold_eq, hbvkeep, writeCand_candOfSI]
      have hlt : ¬ ((candOfSI bvhTmpInit).1.t < bvhTmpInit.t) := lt_irrefl _
      simp [hlt]
    have h2 : compute_intersection_bvh_stackless_one E fuel materials arr prims
        geoms tris verts ray rec = (rec, 0) := by
      simp only [compute_intersection_bvh_stackless_one]
      rw [hrun]
      dsimp only
      rw [hP]
      rfl
    rw [h1, h2]
    exact ⟨rfl, rfl, rfl, rfl, rfl⟩
  · have hmB : m ∈ bruteCands E geoms tris verts ray := hSub m hmL
    have hT : BVH_TMAX < FLT_MAX := by norm_num [BVH_TMAX, FLT_MAX]
    have hmFLT : m.1.t < FLT_MAX := lt_trans hmlt hT
    have hbreach : selFold (candOfBF bfInit)
        (bruteCands E geoms tris verts ray) = m :=
      selFold_reach _ _ _ hmB hmpos
        (show m.1.t < (candOfBF bfInit).1.t from hmFLT) huniq
    have hc : candOfBF (geoms.foldl (bfObject E tris verts ray) bfInit) = m :=
      hbf.trans hbreach
    have ht : (geoms.foldl (bfObject E tris verts ray) bfInit).t_min = m.1.t :=
      congrArg (fun c => c.1.t) hc
    have htne : ¬ (geoms.foldl (bfObject E tris verts ray) bfInit).t_min
        = FLT_MAX := by
      rw [ht]
      exact ne_of_lt hmFLT
    have hmat : (geoms.foldl (bfObject E tris verts ray) bfInit).hit_material_index
        = m.2 := congrArg (fun c => c.2) hc
    have hpt : (geoms.foldl (bfObject E tris verts ray) bfInit).intersect_point
        = m.1.point := congrArg (fun c => c.1.point) hc
    have hn : (geoms.foldl (bfObject E tris verts ray) bfInit).normal
        = m.1.normal := congrArg (fun c => c.1.normal) hc
    have h1 : compute_intersection_one E geoms tris verts ray rec
        = ({ rec with
              t := m.1.t
              materialId := m.2
              surfaceNormal := m.1.normal
              worldPos := m.1.point }, 1) := by
      simp only [compute_intersection_one]
      rw [if_neg htne, ht, hmat, hpt, hn]
    have hmV : m ∈ leafCands E prims geoms tris verts ray V := by
      rw [leafCands_append] at hmL
      rcases List.mem_append.mp hmL with h | h
      · exact leafCands_mono E prims geoms tris verts ray hVl m
          (mem_tvisit_cands E prims geoms tris verts ray tl hCl m h hmpos)
      · exact leafCands_mono E prims geoms tris verts ray hVr m
          (mem_tvisit_cands E prims geoms tris verts ray tr hCr m h hmpos)
    have hbvreach : selFold (candOfSI bvhTmpInit)
        (leafCands E prims geoms tris verts ray V) = m := by
      apply selFold_reach _ _ _ hmV hmpos
        (show m.1.t < (candOfSI bvhTmpInit).1.t from hmlt)
      intro c hc0 hcpos
      exact huniq c (hVbrute c hc0) hcpos
    have hP : procList E prims geoms tris verts ray (bvhTmpInit, false) V
        = (writeCand bvhTmpInit m, true) := by
      rw [procList_eq_fold, siSelFold_eq, hbvreach]
      have hd : decide (m.1.t < bvhTmpInit.t) = true := decide_eq_true hmlt
      rw [hd]
      rfl
    have h2 : compute_intersection_bvh_stackless_one E fuel materials arr prims
        geoms tris verts ray rec
        = ({ writeCand bvhTmpInit m with
              type := (materials.getD (writeCand bvhTmpInit m).materialId.toNat
                matDefault).type }, 1) := by
      simp only [compute_intersection_bvh_stackless_one]
      rw [hrun]
      dsimp only
      rw [hP]
      rfl
    rw [h1, h2]
    exact ⟨rfl, rfl, rfl, rfl, rfl⟩

/-- Witness for the amended C1 on the concrete conservative scene: every
box test passes, the sphere hit at `t = 5` (material 7) is the unique
positive candidate, and the two kernels agree on the flag and on every
compared field. -/
theorem claim_C1_witness :
    (compute_intersection_one Etest cexObjects [] [] cexRay
        clearedIntersection).2
      = (compute_intersection_bvh_stackless_one Etest 10 wMaterials cexArr
          cexPrims cexObjects [] [] cexRay clearedIntersection).2
    ∧ (compute_intersection_one Etest cexObjects [] [] cexRay
        clearedIntersection).1.t
      = (compute_intersection_bvh_stackless_one Etest 10 wMaterials cexArr
          cexPrims cexObjects [] [] cexRay clearedIntersection).1.t
    ∧ (compute_intersection_one Etest cexObjects [] [] cexRay
        clearedIntersection).1.materialId
      = (compute_intersection_bvh_stackless_one Etest 10 wMaterials cexArr
          cexPrims cexObjects [] [] cexRay clearedIntersection).1.materialId
    ∧ (compute_intersection_one Etest cexObjects [] [] cexRay
        clearedIntersection).1.worldPos
      = (compute_intersection_bvh_stackless_one Etest 10 wMaterials cexArr
          cexPrims cexObjects [] [] cexRay clearedIntersection).1.worldPos
    ∧ (compute_intersection_one Etest cexObjects [] [] cexRay
        clearedIntersection).1.surfaceNormal
      = (compute_intersection_bvh_stackless_one Etest 10 wMaterials cexArr
          cexPrims cexObjects [] [] cexRay clearedIntersection).1.surfaceNormal :=
  claim_C1_amended Etest wMaterials cexArr cexPrims cexObjects [] [] cexRay
    clearedIntersection 10 cex_models (by decide) (by decide)
    (fun h => absurd rfl h) (fun h => absurd rfl h) (by decide)
    (Or.inr ⟨(⟨5, ⟨1, 2, 3⟩, ⟨0, 0, 1⟩⟩, 7), by decide, by decide, by decide,
      by decide⟩)

theorem claim_C2_witness :
    traverseStep Etest cexArr cexPrims cexObjects [] [] cexRay
      ⟨2, .fromSibling, bvhTmpInit, false⟩
      = { curr := 0
          state := .fromChild
          inter := (util_bvh_leaf_intersect Etest cexArr cexPrims cexObjects [] []
            2 cexRay bvhTmpInit).1
          intersected := false || (util_bvh_leaf_intersect Etest cexArr cexPrims
            cexObjects [] [] 2 cexRay bvhTmpInit).2 } := by
  have h := (claim_C2 Etest cexArr cexPrims cexObjects [] [] cexRay
    ⟨2, .fromSibling, bvhTmpInit, false⟩).2.2.2.2.2.2.2.1 rfl (by decide) (by decide)
  exact h

end PT
